import Mathlib

/-!
Verification of the move-legality engine and game-state transition logic of a
two-player checkers (dam) server.  The definitions below are a shallow
embedding of the game-logic functions of `src/server.js` (the complete engine)
and, in the namespace `Old`, of the predecessor engine `src/unnamed/part_000`.

Modelling conventions:
* Board cells hold one of the four piece symbols "w", "b", "W", "B" or are
  empty (`Option Piece`); `null` and JavaScript `undefined` read from an
  in-range row at an out-of-range column are conflated to `none` except where
  the source distinguishes them with `=== null` on optionally-chained reads
  (see `cellIsNull`).
* Coordinates are integers (`ℤ`); the board is total on `Fin 8 × Fin 8`.
* `bget` models `board[r]?.[c]` (and `board[r][c]` at coordinates the source
  has already bounds-checked); `bgetE` models unguarded `board[r][c]`, which
  in JavaScript throws when `board[r]` is `undefined`, i.e. when the row index
  is outside `[0,8)`.  Functions suffixed `E` are the exception-aware
  (`Except`) translations used for the error-handling claims.
* Source `while`/`for` loops over diagonal distances are bounded by the move
  geometry; they are translated as structural recursion over the explicit
  list of distances the loop visits (`distList`).
* Request coordinates arrive from the client as raw JavaScript numbers and
  need not be integers; `isValidMoveQE` repeats the exception-aware
  translation with the request coordinates taken as exact rationals
  (`PosQ`), which is where indexing a row by a non-integer is observable.
-/

inductive Piece where
  | w | b | W | B
deriving DecidableEq

inductive Color where
  | w | b
deriving DecidableEq

/-- `piece.toLowerCase()` of a piece symbol, i.e. its color. -/
def Piece.toLowerCase : Piece → Color
  | .w => Color.w
  | .W => Color.w
  | .b => Color.b
  | .B => Color.b

/-- `piece === piece.toUpperCase()`: kings are the upper-case symbols. -/
def Piece.isKing : Piece → Bool
  | .W => true
  | .B => true
  | _ => false

inductive Status where
  | waiting | playing | finished
deriving DecidableEq

structure Pos where
  row : ℤ
  col : ℤ
deriving DecidableEq

abbrev Board := Fin 8 → Fin 8 → Option Piece

structure Game where
  board : Board
  currentPlayer : Color
  status : Status
  winner : Option Color
  mustContinueFrom : Option Pos

/-- Read `board[r]?.[c]`: `none` for an out-of-range coordinate or an empty
square.  Also used for `board[r][c]` at places where the source has already
established that the coordinates are in range. -/
def bget (board : Board) (r c : ℤ) : Option Piece :=
  if h : 0 ≤ r ∧ r < 8 ∧ 0 ≤ c ∧ c < 8 then
    board ⟨r.toNat, by omega⟩ ⟨c.toNat, by omega⟩
  else none

/-- Write `board[r][c] = v`.  An out-of-range write is a no-op on the cells
`bget` can observe (the engine only writes at validated coordinates). -/
def bset (board : Board) (r c : ℤ) (v : Option Piece) : Board :=
  fun i j => if (i : ℤ) = r ∧ (j : ℤ) = c then v else board i j

/-- `createInitialBoard`: black men on dark squares of rows 0-2, white men on
dark squares of rows 5-7. -/
def createInitialBoard : Board := fun row col =>
  if (row.val + col.val) % 2 = 1 ∧ row.val < 3 then some Piece.b
  else if (row.val + col.val) % 2 = 1 ∧ 5 ≤ row.val then some Piece.w
  else none

def createNewGame : Game :=
  { board := createInitialBoard
    currentPlayer := Color.w
    status := Status.waiting
    winner := none
    mustContinueFrom := none }

/-- The four diagonal unit directions, in source order. -/
def directions : List (ℤ × ℤ) := [(-1, -1), (-1, 1), (1, -1), (1, 1)]

/-- `checkPiece && checkPiece.toLowerCase() !== piece.toLowerCase()`. -/
def isEnemy (piece : Piece) : Option Piece → Bool
  | some p => p.toLowerCase ≠ piece.toLowerCase
  | none => false

/-- A cell holding a piece of `piece`'s own color. -/
def isOwn (piece : Piece) : Option Piece → Bool
  | some p => p.toLowerCase = piece.toLowerCase
  | none => false

/-- The distances `1, …, absDr - 1` visited by the source loops
`for (let dist = 1; dist < absDr; dist++)` and
`while (distance < absDr)`. -/
def distList (absDr : ℤ) : List ℤ :=
  (List.range (absDr - 1).toNat).map fun (i : ℕ) => (i : ℤ) + 1

/-- `hasRegularCaptureFrom`: a man captures an adjacent enemy with an empty
landing square two steps away, in any of the four diagonal directions. -/
def hasRegularCaptureFrom (game : Game) (row col : ℤ) : Bool :=
  match bget game.board row col with
  | none => false
  | some piece =>
    directions.any fun d =>
      let midR := row + d.1
      let midC := col + d.2
      let landR := row + 2 * d.1
      let landC := col + 2 * d.2
      if landR < 0 ∨ 8 ≤ landR ∨ landC < 0 ∨ 8 ≤ landC ∨
          midR < 0 ∨ 8 ≤ midR ∨ midC < 0 ∨ 8 ≤ midC then false
      else
        match bget game.board midR midC, bget game.board landR landC with
        | some midPiece, none => midPiece.toLowerCase ≠ piece.toLowerCase
        | _, _ => false

/-- The `while (true)` scan of `hasKingCaptureFrom` along one diagonal
direction, iterated over the explicit list of distances it can visit.
From an on-board square the source loop leaves the board after at most 7
steps, so running it over `distList 8 = [1,…,7]` and answering `false` at the
end of the list reproduces the loop exactly. -/
def kingScanDir (board : Board) (piece : Piece) (row col dr dc : ℤ) :
    List ℤ → Bool → Bool
  | [], _ => false
  | dist :: rest, foundEnemy =>
    let checkR := row + dr * dist
    let checkC := col + dc * dist
    if checkR < 0 ∨ 8 ≤ checkR ∨ checkC < 0 ∨ 8 ≤ checkC then false
    else
      match bget board checkR checkC with
      | none => if foundEnemy then true else
          kingScanDir board piece row col dr dc rest foundEnemy
      | some checkPiece =>
        if checkPiece.toLowerCase = piece.toLowerCase then false
        else if foundEnemy then false
        else kingScanDir board piece row col dr dc rest true

/-- `hasKingCaptureFrom`: a king can capture at any diagonal distance. -/
def hasKingCaptureFrom (game : Game) (row col : ℤ) : Bool :=
  match bget game.board row col with
  | none => false
  | some piece =>
    directions.any fun d =>
      kingScanDir game.board piece row col d.1 d.2 (distList 8) false

/-- `hasCaptureFrom`: dispatch on rank. -/
def hasCaptureFrom (game : Game) (row col : ℤ) : Bool :=
  match bget game.board row col with
  | none => false
  | some piece =>
    if piece.isKing then hasKingCaptureFrom game row col
    else hasRegularCaptureFrom game row col

/-- `getAllPlayerPieces`: all squares holding a piece of the given color. -/
def getAllPlayerPieces (board : Board) (color : Color) : List (ℤ × ℤ × Piece) :=
  (List.range 8).flatMap fun row =>
    (List.range 8).filterMap fun col =>
      match bget board (row : ℤ) (col : ℤ) with
      | some piece =>
        if piece.toLowerCase = color then some ((row : ℤ), (col : ℤ), piece)
        else none
      | none => none

/-- `playerHasAnyCapture`: during a capture chain only the chain piece
matters; otherwise scan all the player's pieces. -/
def playerHasAnyCapture (game : Game) (playerColor : Color) : Bool :=
  match game.mustContinueFrom with
  | some m => hasCaptureFrom game m.row m.col
  | none =>
    (getAllPlayerPieces game.board playerColor).any fun x =>
      hasCaptureFrom game x.1 x.2.1

/-- The capture-chain origin check of `isValidMove` (lines 236-240):
`mustContinueFrom.row !== fr || mustContinueFrom.col !== fc`. -/
def mustContinueMismatch (mcf : Option Pos) (fromPos : Pos) : Bool :=
  match mcf with
  | some m => m.row ≠ fromPos.row ∨ m.col ≠ fromPos.col
  | none => false

/-- The move-classification block of `isValidMove` (lines 252-269): a king
move is a capture when some enemy piece lies on the scanned diagonal ray; a
man move is a capture exactly when it spans two rows and two columns. -/
def computeIsCapture (board : Board) (piece : Piece) (fromPos toPos : Pos) : Bool :=
  let dr := toPos.row - fromPos.row
  let dc := toPos.col - fromPos.col
  if piece.isKing then
    (distList |dr|).any fun dist =>
      isEnemy piece (bget board (fromPos.row + (if 0 < dr then 1 else -1) * dist)
                               (fromPos.col + (if 0 < dc then 1 else -1) * dist))
  else |dr| = 2 ∧ |dc| = 2

/-- The classification of a proposed move, as computed by the engine:
`false` means the move is (at most) a simple move.  With no piece at the
origin nothing is classified as a capture. -/
def classifiesAsCapture (game : Game) (fromPos toPos : Pos) : Bool :=
  match bget game.board fromPos.row fromPos.col with
  | none => false
  | some piece => computeIsCapture game.board piece fromPos toPos

/-- The man-capture midpoint check of `isValidMove` (lines 288-295). -/
def manCaptureCheck (board : Board) (piece : Piece) (fromPos toPos : Pos) : Bool :=
  match bget board (fromPos.row + (toPos.row - fromPos.row) / 2)
                   (fromPos.col + (toPos.col - fromPos.col) / 2) with
  | none => false
  | some midPiece => midPiece.toLowerCase ≠ piece.toLowerCase

/-- The `while (distance < absDr)` scan of `isValidKingMove`, over the
explicit distance list.  `none` models the scan returning `false` early (own
piece in the path, or a second enemy); `some foundEnemy` models the scan
completing. -/
def kingScanPath (board : Board) (piece : Piece) (fr fc dirR dirC : ℤ) :
    List ℤ → Bool → Option Bool
  | [], foundEnemy => some foundEnemy
  | dist :: rest, foundEnemy =>
    match bget board (fr + dirR * dist) (fc + dirC * dist) with
    | none => kingScanPath board piece fr fc dirR dirC rest foundEnemy
    | some checkPiece =>
      if checkPiece.toLowerCase = piece.toLowerCase then none
      else if foundEnemy then none
      else kingScanPath board piece fr fc dirR dirC rest true

/-- `isValidKingMove` (lines 307-376). -/
def isValidKingMove (game : Game) (fromPos toPos : Pos) (piece : Piece)
    (mustContinueFrom : Option Pos) : Bool :=
  let dr := toPos.row - fromPos.row
  let dc := toPos.col - fromPos.col
  if |dr| ≠ |dc| then false
  else if |dr| < 1 then false
  else
    match kingScanPath game.board piece fromPos.row fromPos.col
        (if 0 < dr then 1 else -1) (if 0 < dc then 1 else -1)
        (distList |dr|) false with
    | none => false
    | some foundEnemy =>
      if (bget game.board toPos.row toPos.col).isSome then false
      else if foundEnemy then true
      else if mustContinueFrom.isSome then false
      else true

/-- The body of `isValidMove` from line 234 on, once a `piece` has been read
at the origin (lines 232-233). -/
def isValidMovePiece (game : Game) (fromPos toPos : Pos) (playerColor : Color)
    (piece : Piece) : Bool :=
  if piece.toLowerCase ≠ playerColor then false
  else if mustContinueMismatch game.mustContinueFrom fromPos then false
  else if (bget game.board toPos.row toPos.col).isSome then false
  else if computeIsCapture game.board piece fromPos toPos = false ∧
      playerHasAnyCapture game playerColor = true then false
  else if piece.isKing then
    isValidKingMove game fromPos toPos piece game.mustContinueFrom
  else if computeIsCapture game.board piece fromPos toPos = false ∧
      ¬(|toPos.row - fromPos.row| = 1 ∧ |toPos.col - fromPos.col| = 1) then false
  else if computeIsCapture game.board piece fromPos toPos = true then
    manCaptureCheck game.board piece fromPos toPos
  else if game.mustContinueFrom.isSome then false
  else if piece.toLowerCase = Color.w ∧ 0 ≤ toPos.row - fromPos.row then false
  else if piece.toLowerCase ≠ Color.w ∧ toPos.row - fromPos.row ≤ 0 then false
  else true

/-- `isValidMove` (lines 219-305) of the complete engine. -/
def isValidMove (game : Game) (fromPos toPos : Pos) (playerColor : Color) : Bool :=
  if game.status ≠ Status.playing then false
  else if game.currentPlayer ≠ playerColor then false
  else if fromPos.row = toPos.row ∧ fromPos.col = toPos.col then false
  else if toPos.row < 0 ∨ 8 ≤ toPos.row ∨ toPos.col < 0 ∨ 8 ≤ toPos.col then false
  else
    match bget game.board fromPos.row fromPos.col with
    | none => false
    | some piece => isValidMovePiece game fromPos toPos playerColor piece

/-- `game.currentPlayer === "w" ? "b" : "w"`. -/
def otherColor : Color → Color
  | Color.w => Color.b
  | Color.b => Color.w

/-- The capture-removal step of `applyMove` (lines 390-419), performed on the
board after the origin square has been cleared: for a king, remove the first
enemy on the scanned diagonal; for a man, remove the midpoint of a two-square
jump.  Returns the updated board and `didCapture`. -/
def applyMoveCapture (board : Board) (piece : Piece) (fromPos toPos : Pos) :
    Board × Bool :=
  let dr := toPos.row - fromPos.row
  let dc := toPos.col - fromPos.col
  if piece.isKing then
    match (distList |dr|).find? (fun dist =>
        isEnemy piece (bget board (fromPos.row + (if 0 < dr then 1 else -1) * dist)
                                 (fromPos.col + (if 0 < dc then 1 else -1) * dist))) with
    | some dist =>
      (bset board (fromPos.row + (if 0 < dr then 1 else -1) * dist)
                  (fromPos.col + (if 0 < dc then 1 else -1) * dist) none, true)
    | none => (board, false)
  else
    if |dr| = 2 ∧ |dc| = 2 then
      (bset board (fromPos.row + dr / 2) (fromPos.col + dc / 2) none, true)
    else (board, false)

/-- `didCapture` as computed by `applyMove` for a proposed move. -/
def moveDidCapture (game : Game) (fromPos toPos : Pos) : Bool :=
  match bget game.board fromPos.row fromPos.col with
  | none => false
  | some piece =>
    (applyMoveCapture (bset game.board fromPos.row fromPos.col none)
      piece fromPos toPos).2

/-- The board after `applyMove`'s mutations (lines 384-425): clear the
origin, remove the captured piece if any, place the piece at the destination,
and apply the king promotion at the landing square. -/
def applyMoveBoard (board : Board) (piece : Piece) (fromPos toPos : Pos) : Board :=
  let board1 := bset board fromPos.row fromPos.col none
  let board2 := (applyMoveCapture board1 piece fromPos toPos).1
  let board3 := bset board2 toPos.row toPos.col (some piece)
  if piece = Piece.w ∧ toPos.row = 0 then
    bset board3 toPos.row toPos.col (some Piece.W)
  else if piece = Piece.b ∧ toPos.row = 7 then
    bset board3 toPos.row toPos.col (some Piece.B)
  else board3

/-- `applyMove` (lines 378-433).  The source mutates `game` in place; the
translation returns the updated game.  (With no piece at the origin the
source would fault on `piece.toUpperCase()`; `applyMove` is only ever called
on moves accepted by `isValidMove`, which guarantees a piece.) -/
def applyMove (game : Game) (fromPos toPos : Pos) : Game :=
  match bget game.board fromPos.row fromPos.col with
  | none => game
  | some piece =>
    let board4 := applyMoveBoard game.board piece fromPos toPos
    let didCapture :=
      (applyMoveCapture (bset game.board fromPos.row fromPos.col none)
        piece fromPos toPos).2
    if didCapture ∧
        hasCaptureFrom { game with board := board4 } toPos.row toPos.col = true then
      { game with board := board4, mustContinueFrom := some toPos }
    else
      { game with board := board4, mustContinueFrom := none,
                  currentPlayer := otherColor game.currentPlayer }

/-- `game.board[r]?.[c] === null` (handler lines 524, 530): `undefined` from
an out-of-range coordinate is *not* `null`, so this holds exactly for an
in-range empty square. -/
def cellIsNull (board : Board) (r c : ℤ) : Bool :=
  (0 ≤ r ∧ r < 8 ∧ 0 ≤ c ∧ c < 8) ∧ bget board r c = none

/-- The `isSimpleMoveAttempt` computation of the `makeMove` handler
(lines 504-533): a geometric simple-shape test only — it consults neither the
turn, nor the chain constraint, nor a man's move direction. -/
def isSimpleMoveAttempt (game : Game) (piece : Piece) (fromPos toPos : Pos) : Bool :=
  let dr := toPos.row - fromPos.row
  let dc := toPos.col - fromPos.col
  if piece.isKing then
    if |dr| = |dc| ∧ 0 < |dr| then
      let hasEnemyInPath := (distList |dr|).any fun dist =>
        isEnemy piece (bget game.board (fromPos.row + (if 0 < dr then 1 else -1) * dist)
                                      (fromPos.col + (if 0 < dc then 1 else -1) * dist))
      ¬hasEnemyInPath ∧ cellIsNull game.board toPos.row toPos.col
    else false
  else (|dr| = 1 ∧ |dc| = 1) ∧ cellIsNull game.board toPos.row toPos.col

/-- The message the `makeMove` handler emits back for a move request. -/
inductive Emit where
  | gameUpdate | mustCapture | invalidMove
deriving DecidableEq

/-- The `makeMove` socket handler (lines 482-550), restricted to a room whose
game is `game` and a requester of color `playerColor`: the resulting game
state and the emitted reply. -/
def makeMove (game : Game) (fromPos toPos : Pos) (playerColor : Color) :
    Game × Emit :=
  if isValidMove game fromPos toPos playerColor then
    (applyMove game fromPos toPos, Emit.gameUpdate)
  else
    match bget game.board fromPos.row fromPos.col with
    | some piece =>
      if piece.toLowerCase = playerColor then
        if isSimpleMoveAttempt game piece fromPos toPos ∧
            playerHasAnyCapture game playerColor = true then
          (game, Emit.mustCapture)
        else (game, Emit.invalidMove)
      else (game, Emit.invalidMove)
    | none => (game, Emit.invalidMove)

/-- Modelled from the spec: the spec distinguishes a move "rejected solely
because a capture was mandatory"; the counterfactual engine below is
`isValidMove` with the forced-capture rejection (source lines 271-274)
removed, so that "rejected solely because a capture was mandatory" can be
stated as: rejected by `isValidMove` yet accepted by this engine.  No such
function exists in the source. -/
def isValidMoveNoForcedPiece (game : Game) (fromPos toPos : Pos)
    (playerColor : Color) (piece : Piece) : Bool :=
  if piece.toLowerCase ≠ playerColor then false
  else if mustContinueMismatch game.mustContinueFrom fromPos then false
  else if (bget game.board toPos.row toPos.col).isSome then false
  else if piece.isKing then
    isValidKingMove game fromPos toPos piece game.mustContinueFrom
  else if computeIsCapture game.board piece fromPos toPos = false ∧
      ¬(|toPos.row - fromPos.row| = 1 ∧ |toPos.col - fromPos.col| = 1) then false
  else if computeIsCapture game.board piece fromPos toPos = true then
    manCaptureCheck game.board piece fromPos toPos
  else if game.mustContinueFrom.isSome then false
  else if piece.toLowerCase = Color.w ∧ 0 ≤ toPos.row - fromPos.row then false
  else if piece.toLowerCase ≠ Color.w ∧ toPos.row - fromPos.row ≤ 0 then false
  else true

/-- See `isValidMoveNoForcedPiece`; outer checks as in `isValidMove`. -/
def isValidMoveNoForced (game : Game) (fromPos toPos : Pos) (playerColor : Color) : Bool :=
  if game.status ≠ Status.playing then false
  else if game.currentPlayer ≠ playerColor then false
  else if fromPos.row = toPos.row ∧ fromPos.col = toPos.col then false
  else if toPos.row < 0 ∨ 8 ≤ toPos.row ∨ toPos.col < 0 ∨ 8 ≤ toPos.col then false
  else
    match bget game.board fromPos.row fromPos.col with
    | none => false
    | some piece => isValidMoveNoForcedPiece game fromPos toPos playerColor piece

namespace Old

/-- `isValidMove` (lines 123-187) of the predecessor engine
`src/unnamed/part_000`: no forced capture, no king long-range moves — every
capture is a two-square jump and every simple move a one-square step; only
the simple-move direction restriction is conditional on rank. -/
def isValidMovePiece (game : Game) (fromPos toPos : Pos) (playerColor : Color)
    (piece : Piece) : Bool :=
  if piece.toLowerCase ≠ playerColor then false
  else if mustContinueMismatch game.mustContinueFrom fromPos then false
  else if (bget game.board toPos.row toPos.col).isSome then false
  else if ¬(|toPos.row - fromPos.row| = 2 ∧ |toPos.col - fromPos.col| = 2) ∧
      ¬(|toPos.row - fromPos.row| = 1 ∧ |toPos.col - fromPos.col| = 1) then false
  else if |toPos.row - fromPos.row| = 2 ∧ |toPos.col - fromPos.col| = 2 then
    manCaptureCheck game.board piece fromPos toPos
  else if game.mustContinueFrom.isSome then false
  else if piece.isKing = false ∧ piece.toLowerCase = Color.w ∧
      0 ≤ toPos.row - fromPos.row then false
  else if piece.isKing = false ∧ piece.toLowerCase ≠ Color.w ∧
      toPos.row - fromPos.row ≤ 0 then false
  else true

/-- The outer checks of the predecessor engine, identical to the complete
engine's. -/
def isValidMove (game : Game) (fromPos toPos : Pos) (playerColor : Color) : Bool :=
  if game.status ≠ Status.playing then false
  else if game.currentPlayer ≠ playerColor then false
  else if fromPos.row = toPos.row ∧ fromPos.col = toPos.col then false
  else if toPos.row < 0 ∨ 8 ≤ toPos.row ∨ toPos.col < 0 ∨ 8 ≤ toPos.col then false
  else
    match bget game.board fromPos.row fromPos.col with
    | none => false
    | some piece => isValidMovePiece game fromPos toPos playerColor piece

end Old

/-- Game states reachable from a fresh game: the room layer may switch the
status to `playing` when the second player joins (line 459), and the engine
applies moves it has validated. -/
inductive Reachable : Game → Prop where
  | init : Reachable createNewGame
  | start (g : Game) (h : Reachable g) : Reachable { g with status := Status.playing }
  | step (g : Game) (f t : Pos) (c : Color) (h : Reachable g)
      (hv : isValidMove g f t c = true) : Reachable (applyMove g f t)

/-- The cells strictly between `fromPos` and `toPos` along the scanned
diagonal ray, in scan order. -/
def pathCells (board : Board) (fromPos toPos : Pos) : List (Option Piece) :=
  (distList |toPos.row - fromPos.row|).map fun dist =>
    bget board
      (fromPos.row + (if 0 < toPos.row - fromPos.row then 1 else -1) * dist)
      (fromPos.col + (if 0 < toPos.col - fromPos.col then 1 else -1) * dist)

/-- Bind for `Except Unit`, written out so that proofs can reduce it by
cases. -/
def ebind {α β : Type} (x : Except Unit α) (f : α → Except Unit β) :
    Except Unit β :=
  match x with
  | Except.ok a => f a
  | Except.error e => Except.error e

/-- Unguarded `board[r][c]`: in JavaScript this throws exactly when
`board[r]` is `undefined`, i.e. when the row index is outside the array; a
column outside `[0,8)` merely reads `undefined` from a real row (conflated
with `none`). -/
def bgetE (board : Board) (r c : ℤ) : Except Unit (Option Piece) :=
  if 0 ≤ r ∧ r < 8 then Except.ok (bget board r c) else Except.error ()

/-- `v.toLowerCase()` on a possibly-`null` value: throws on `null`. -/
def jsLowerE : Option Piece → Except Unit Color
  | some p => Except.ok p.toLowerCase
  | none => Except.error ()

/-- Exception-aware `hasRegularCaptureFrom` direction loop.  `piece0` is the
value read by the unguarded `board[row][col]` at the top of the source
function; `piece0.toLowerCase()` is only reached behind the `!midPiece`
and bounds guards. -/
def regScanDirsE (board : Board) (piece0 : Option Piece) (row col : ℤ) :
    List (ℤ × ℤ) → Except Unit Bool
  | [] => Except.ok false
  | d :: rest =>
    let midR := row + d.1
    let midC := col + d.2
    let landR := row + 2 * d.1
    let landC := col + 2 * d.2
    if landR < 0 ∨ 8 ≤ landR ∨ landC < 0 ∨ 8 ≤ landC ∨
        midR < 0 ∨ 8 ≤ midR ∨ midC < 0 ∨ 8 ≤ midC then
      regScanDirsE board piece0 row col rest
    else
      match bget board midR midC, bget board landR landC with
      | some midPiece, none =>
        ebind (jsLowerE piece0) fun pieceLow =>
          if midPiece.toLowerCase = pieceLow then regScanDirsE board piece0 row col rest
          else Except.ok true
      | _, _ => regScanDirsE board piece0 row col rest

/-- Exception-aware `hasRegularCaptureFrom`. -/
def hasRegularCaptureFromE (game : Game) (row col : ℤ) : Except Unit Bool :=
  ebind (bgetE game.board row col) fun piece0 =>
    regScanDirsE game.board piece0 row col directions

/-- Exception-aware king capture scan along one direction (the inner
`while (true)` loop of `hasKingCaptureFrom`); the board read there is behind
the loop's own bounds check, but `piece.toLowerCase()` would throw if
`piece0` were `null`. -/
def kingScanDirE (board : Board) (piece0 : Option Piece) (row col dr dc : ℤ) :
    List ℤ → Bool → Except Unit Bool
  | [], _ => Except.ok false
  | dist :: rest, foundEnemy =>
    let checkR := row + dr * dist
    let checkC := col + dc * dist
    if checkR < 0 ∨ 8 ≤ checkR ∨ checkC < 0 ∨ 8 ≤ checkC then Except.ok false
    else
      match bget board checkR checkC with
      | none => if foundEnemy then Except.ok true else
          kingScanDirE board piece0 row col dr dc rest foundEnemy
      | some checkPiece =>
        ebind (jsLowerE piece0) fun pieceLow =>
          if checkPiece.toLowerCase = pieceLow then Except.ok false
          else if foundEnemy then Except.ok false
          else kingScanDirE board piece0 row col dr dc rest true

/-- The direction loop of `hasKingCaptureFrom`, exception-aware. -/
def kingDirLoopE (board : Board) (piece0 : Option Piece) (row col : ℤ) :
    List (ℤ × ℤ) → Except Unit Bool
  | [] => Except.ok false
  | d :: rest =>
    ebind (kingScanDirE board piece0 row col d.1 d.2 (distList 8) false) fun b =>
      if b then Except.ok true else kingDirLoopE board piece0 row col rest

/-- Exception-aware `hasKingCaptureFrom`; `board[row][col]` at the top is
unguarded. -/
def hasKingCaptureFromE (game : Game) (row col : ℤ) : Except Unit Bool :=
  ebind (bgetE game.board row col) fun piece0 =>
    kingDirLoopE game.board piece0 row col directions

/-- Exception-aware `hasCaptureFrom` (its own read uses optional chaining). -/
def hasCaptureFromE (game : Game) (row col : ℤ) : Except Unit Bool :=
  match bget game.board row col with
  | none => Except.ok false
  | some piece =>
    if piece.isKing then hasKingCaptureFromE game row col
    else hasRegularCaptureFromE game row col

/-- The piece loop of `playerHasAnyCapture`, exception-aware. -/
def anyCaptureLoopE (game : Game) : List (ℤ × ℤ × Piece) → Except Unit Bool
  | [] => Except.ok false
  | x :: rest =>
    ebind (hasCaptureFromE game x.1 x.2.1) fun b =>
      if b then Except.ok true else anyCaptureLoopE game rest

/-- Exception-aware `playerHasAnyCapture`.  (`getAllPlayerPieces` only reads
the board at the literal loop indices `0…7`, so it cannot throw.) -/
def playerHasAnyCaptureE (game : Game) (playerColor : Color) : Except Unit Bool :=
  match game.mustContinueFrom with
  | some m => hasCaptureFromE game m.row m.col
  | none => anyCaptureLoopE game (getAllPlayerPieces game.board playerColor)

/-- The king move-classification loop of `isValidMove` (lines 256-266),
exception-aware: `board[checkR][checkC]` is unguarded. -/
def kingClassifyE (board : Board) (piece : Piece) (fr fc dirR dirC : ℤ) :
    List ℤ → Except Unit Bool
  | [] => Except.ok false
  | dist :: rest =>
    ebind (bgetE board (fr + dirR * dist) (fc + dirC * dist)) fun checkPiece =>
      if isEnemy piece checkPiece then Except.ok true
      else kingClassifyE board piece fr fc dirR dirC rest

/-- The path scan of `isValidKingMove` (lines 332-355), exception-aware:
`board[checkR][checkC]` is unguarded. -/
def kingScanPathE (board : Board) (piece : Piece) (fr fc dirR dirC : ℤ) :
    List ℤ → Bool → Except Unit (Option Bool)
  | [], foundEnemy => Except.ok (some foundEnemy)
  | dist :: rest, foundEnemy =>
    ebind (bgetE board (fr + dirR * dist) (fc + dirC * dist)) fun checkPiece =>
      match checkPiece with
      | none => kingScanPathE board piece fr fc dirR dirC rest foundEnemy
      | some cp =>
        if cp.toLowerCase = piece.toLowerCase then Except.ok none
        else if foundEnemy then Except.ok none
        else kingScanPathE board piece fr fc dirR dirC rest true

/-- Exception-aware `isValidKingMove`; `board[tr][tc]` at line 358 is
unguarded. -/
def isValidKingMoveE (game : Game) (fromPos toPos : Pos) (piece : Piece)
    (mustContinueFrom : Option Pos) : Except Unit Bool :=
  let dr := toPos.row - fromPos.row
  let dc := toPos.col - fromPos.col
  if |dr| ≠ |dc| then Except.ok false
  else if |dr| < 1 then Except.ok false
  else
    ebind (kingScanPathE game.board piece fromPos.row fromPos.col
        (if 0 < dr then 1 else -1) (if 0 < dc then 1 else -1)
        (distList |dr|) false) fun scan =>
      match scan with
      | none => Except.ok false
      | some foundEnemy =>
        ebind (bgetE game.board toPos.row toPos.col) fun toCell =>
          if toCell.isSome then Except.ok false
          else if foundEnemy then Except.ok true
          else if mustContinueFrom.isSome then Except.ok false
          else Except.ok true

/-- Exception-aware `isValidMove`: each unguarded `board[...][...]` read of
the source goes through `bgetE`; everything else is as in `isValidMove`.
The short-circuit of `!isCapture && playerHasAnyCapture(...)` is preserved. -/
def isValidMoveE (game : Game) (fromPos toPos : Pos) (playerColor : Color) :
    Except Unit Bool :=
  if game.status ≠ Status.playing then Except.ok false
  else if game.currentPlayer ≠ playerColor then Except.ok false
  else if fromPos.row = toPos.row ∧ fromPos.col = toPos.col then Except.ok false
  else if toPos.row < 0 ∨ 8 ≤ toPos.row ∨ toPos.col < 0 ∨ 8 ≤ toPos.col then
    Except.ok false
  else
    match bget game.board fromPos.row fromPos.col with
    | none => Except.ok false
    | some piece =>
      if piece.toLowerCase ≠ playerColor then Except.ok false
      else if mustContinueMismatch game.mustContinueFrom fromPos then Except.ok false
      else
        ebind (bgetE game.board toPos.row toPos.col) fun toCell =>
          if toCell.isSome then Except.ok false
          else
            let dr := toPos.row - fromPos.row
            let dc := toPos.col - fromPos.col
            ebind (if piece.isKing then
                kingClassifyE game.board piece fromPos.row fromPos.col
                  (if 0 < dr then 1 else -1) (if 0 < dc then 1 else -1)
                  (distList |dr|)
              else Except.ok (decide (|dr| = 2 ∧ |dc| = 2))) fun isCapture =>
            ebind (if isCapture = false then playerHasAnyCaptureE game playerColor
              else Except.ok false) fun forced =>
            if isCapture = false ∧ forced = true then Except.ok false
            else if piece.isKing then
              isValidKingMoveE game fromPos toPos piece game.mustContinueFrom
            else if isCapture = false ∧ ¬(|dr| = 1 ∧ |dc| = 1) then Except.ok false
            else if isCapture = true then
              Except.ok (manCaptureCheck game.board piece fromPos toPos)
            else if game.mustContinueFrom.isSome then Except.ok false
            else if piece.toLowerCase = Color.w ∧ 0 ≤ dr then Except.ok false
            else if piece.toLowerCase ≠ Color.w ∧ dr ≤ 0 then Except.ok false
            else Except.ok true

/-- A fresh game after both players have joined (line 459 switches the status
to `playing`). -/
def playingInitial : Game := { createNewGame with status := Status.playing }

/-- Scenario C board: white king at (4,4), black men at (2,2) and (0,0),
everything else empty. -/
def scenCBoard : Board := fun r c =>
  if r.val = 4 ∧ c.val = 4 then some Piece.W
  else if (r.val = 2 ∧ c.val = 2) ∨ (r.val = 0 ∧ c.val = 0) then some Piece.b
  else none

/-- Scenario C game: white to move, no chain in progress. -/
def scenC : Game :=
  { board := scenCBoard
    currentPlayer := Color.w
    status := Status.playing
    winner := none
    mustContinueFrom := none }

/-- A board with a white man at (5,2) that can capture the black man at (4,1)
(landing on the empty (3,0)). -/
def forcedBoard : Board := fun r c =>
  if r.val = 5 ∧ c.val = 2 then some Piece.w
  else if r.val = 4 ∧ c.val = 1 then some Piece.b
  else none

/-- White to move on `forcedBoard`: a capture is available, so every simple
move is illegal. -/
def forcedGame : Game :=
  { board := forcedBoard
    currentPlayer := Color.w
    status := Status.playing
    winner := none
    mustContinueFrom := none }

/-- A board with a lone white man at (1,0), one step from promotion. -/
def promoBoard : Board := fun r c =>
  if r.val = 1 ∧ c.val = 0 then some Piece.w else none

def promoGame : Game :=
  { board := promoBoard
    currentPlayer := Color.w
    status := Status.playing
    winner := none
    mustContinueFrom := none }

/-- An initial-position game with an (artificial) active chain constraint at
(2,1), used to exhibit the chain-enforcement rejection. -/
def chainGame : Game := { playingInitial with mustContinueFrom := some ⟨2, 1⟩ }

deriving instance DecidableEq for Except

/-- A move-request position as the client actually supplies it: a pair of
JavaScript numbers, which need not be integers.  The numbers are modelled as
exact rationals; every operation the engine performs on a request coordinate
(comparison, subtraction, halving, absolute value, equality with a stored
integer) is exact on IEEE doubles of this magnitude, so the rational model
agrees with the source on such inputs.  Game state itself (board indices,
`mustContinueFrom`) is only ever written by the engine and stays integral. -/
structure PosQ where
  row : ℚ
  col : ℚ
deriving DecidableEq

/-- `board[r]?.[c]` at JS-number coordinates: an 8×8 array has an own
property exactly at the integer indices 0..7, so a non-integer or
out-of-range row or column reads `undefined` (conflated with `none`). -/
def bqget (board : Board) (r c : ℚ) : Option Piece :=
  if h : r.den = 1 ∧ 0 ≤ r.num ∧ r.num < 8 ∧ c.den = 1 ∧ 0 ≤ c.num ∧ c.num < 8 then
    board ⟨r.num.toNat, by omega⟩ ⟨c.num.toNat, by omega⟩
  else none

/-- Unguarded `board[r][c]` at JS-number coordinates: throws exactly when
`board[r]` is `undefined`, i.e. when `r` is not an integer in `[0,8)`
(e.g. `board[3.5]` is `undefined`, so `board[3.5][c]` raises a TypeError). -/
def bqgetE (board : Board) (r c : ℚ) : Except Unit (Option Piece) :=
  if r.den = 1 ∧ 0 ≤ r.num ∧ r.num < 8 then Except.ok (bqget board r c)
  else Except.error ()

/-- The chain-origin check (lines 236-240) against a JS-number request:
`mustContinueFrom` holds engine-written integers, the request side is a
number. -/
def mustContinueMismatchQ (mcf : Option Pos) (fromPos : PosQ) : Bool :=
  match mcf with
  | some m => (m.row : ℚ) ≠ fromPos.row ∨ (m.col : ℚ) ≠ fromPos.col
  | none => false

/-- The distances visited by `for (let dist = 1; dist < absDr; dist++)` when
`absDr` is an arbitrary JS number: `dist` itself stays an integer, so the
loop visits the integers `1, …, ⌈absDr⌉ - 1`. -/
def distListQ (absDr : ℚ) : List ℚ :=
  (List.range (⌈absDr⌉ - 1).toNat).map fun (i : ℕ) => (i : ℚ) + 1

/-- The king move-classification loop of `isValidMove` (lines 256-266) at
JS-number coordinates; `board[checkR][checkC]` is unguarded. -/
def kingClassifyQE (board : Board) (piece : Piece) (fr fc dirR dirC : ℚ) :
    List ℚ → Except Unit Bool
  | [] => Except.ok false
  | dist :: rest =>
    ebind (bqgetE board (fr + dirR * dist) (fc + dirC * dist)) fun checkPiece =>
      if isEnemy piece checkPiece then Except.ok true
      else kingClassifyQE board piece fr fc dirR dirC rest

/-- The path scan of `isValidKingMove` (lines 332-355) at JS-number
coordinates; `board[checkR][checkC]` is unguarded. -/
def kingScanPathQE (board : Board) (piece : Piece) (fr fc dirR dirC : ℚ) :
    List ℚ → Bool → Except Unit (Option Bool)
  | [], foundEnemy => Except.ok (some foundEnemy)
  | dist :: rest, foundEnemy =>
    ebind (bqgetE board (fr + dirR * dist) (fc + dirC * dist)) fun checkPiece =>
      match checkPiece with
      | none => kingScanPathQE board piece fr fc dirR dirC rest foundEnemy
      | some cp =>
        if cp.toLowerCase = piece.toLowerCase then Except.ok none
        else if foundEnemy then Except.ok none
        else kingScanPathQE board piece fr fc dirR dirC rest true

/-- `isValidKingMove` (lines 307-376) at JS-number request coordinates;
`board[tr][tc]` at line 358 is unguarded. -/
def isValidKingMoveQE (game : Game) (fromPos toPos : PosQ) (piece : Piece)
    (mustContinueFrom : Option Pos) : Except Unit Bool :=
  let dr := toPos.row - fromPos.row
  let dc := toPos.col - fromPos.col
  if |dr| ≠ |dc| then Except.ok false
  else if |dr| < 1 then Except.ok false
  else
    ebind (kingScanPathQE game.board piece fromPos.row fromPos.col
        (if 0 < dr then 1 else -1) (if 0 < dc then 1 else -1)
        (distListQ |dr|) false) fun scan =>
      match scan with
      | none => Except.ok false
      | some foundEnemy =>
        ebind (bqgetE game.board toPos.row toPos.col) fun toCell =>
          if toCell.isSome then Except.ok false
          else if foundEnemy then Except.ok true
          else if mustContinueFrom.isSome then Except.ok false
          else Except.ok true

/-- The man-capture midpoint check (lines 288-295) at JS-number coordinates:
`board[midR]?.[midC]` is optionally chained, so a non-integer midpoint reads
`undefined` without throwing. -/
def manCaptureCheckQ (board : Board) (piece : Piece) (fromPos toPos : PosQ) : Bool :=
  match bqget board (fromPos.row + (toPos.row - fromPos.row) / 2)
                    (fromPos.col + (toPos.col - fromPos.col) / 2) with
  | none => false
  | some midPiece => midPiece.toLowerCase ≠ piece.toLowerCase

/-- `isValidMove` (lines 219-305) with the request coordinates taken as raw
JS numbers rather than integers: the same translation as `isValidMoveE`,
except that every read indexed by a request coordinate goes through
`bqget`/`bqgetE`.  `playerHasAnyCapture` only reads engine-written integer
state, so its translation is shared.  Note that the line-230 bounds check
(`tr < 0 || tr >= 8 || …`) does not rule out non-integer coordinates, while
the line-242 read `board[tr][tc]` is unguarded. -/
def isValidMoveQE (game : Game) (fromPos toPos : PosQ) (playerColor : Color) :
    Except Unit Bool :=
  if game.status ≠ Status.playing then Except.ok false
  else if game.currentPlayer ≠ playerColor then Except.ok false
  else if fromPos.row = toPos.row ∧ fromPos.col = toPos.col then Except.ok false
  else if toPos.row < 0 ∨ 8 ≤ toPos.row ∨ toPos.col < 0 ∨ 8 ≤ toPos.col then
    Except.ok false
  else
    match bqget game.board fromPos.row fromPos.col with
    | none => Except.ok false
    | some piece =>
      if piece.toLowerCase ≠ playerColor then Except.ok false
      else if mustContinueMismatchQ game.mustContinueFrom fromPos then Except.ok false
      else
        ebind (bqgetE game.board toPos.row toPos.col) fun toCell =>
          if toCell.isSome then Except.ok false
          else
            let dr := toPos.row - fromPos.row
            let dc := toPos.col - fromPos.col
            ebind (if piece.isKing then
                kingClassifyQE game.board piece fromPos.row fromPos.col
                  (if 0 < dr then 1 else -1) (if 0 < dc then 1 else -1)
                  (distListQ |dr|)
              else Except.ok (decide (|dr| = 2 ∧ |dc| = 2))) fun isCapture =>
            ebind (if isCapture = false then playerHasAnyCaptureE game playerColor
              else Except.ok false) fun forced =>
            if isCapture = false ∧ forced = true then Except.ok false
            else if piece.isKing then
              isValidKingMoveQE game fromPos toPos piece game.mustContinueFrom
            else if isCapture = false ∧ ¬(|dr| = 1 ∧ |dc| = 1) then Except.ok false
            else if isCapture = true then
              Except.ok (manCaptureCheckQ game.board piece fromPos toPos)
            else if game.mustContinueFrom.isSome then Except.ok false
            else if piece.toLowerCase = Color.w ∧ 0 ≤ dr then Except.ok false
            else if piece.toLowerCase ≠ Color.w ∧ dr ≤ 0 then Except.ok false
            else Except.ok true

theorem bget_some_bounds {b : Board} {r c : ℤ} {p : Piece}
    (h : bget b r c = some p) : 0 ≤ r ∧ r < 8 ∧ 0 ≤ c ∧ c < 8 := by
  by_contra hc
  unfold bget at h
  rw [dif_neg hc] at h
  exact Option.noConfusion h

theorem bget_isSome_bounds {b : Board} {r c : ℤ}
    (h : (bget b r c).isSome = true) : 0 ≤ r ∧ r < 8 ∧ 0 ≤ c ∧ c < 8 := by
  obtain ⟨p, hp⟩ := Option.isSome_iff_exists.mp h
  exact bget_some_bounds hp

theorem bget_bset (b : Board) (r0 c0 : ℤ) (v : Option Piece) (r c : ℤ) :
    bget (bset b r0 c0 v) r c =
      if r = r0 ∧ c = c0 ∧ 0 ≤ r ∧ r < 8 ∧ 0 ≤ c ∧ c < 8 then v
      else bget b r c := by
  unfold bget bset
  by_cases h : 0 ≤ r ∧ r < 8 ∧ 0 ≤ c ∧ c < 8
  · rw [dif_pos h, dif_pos h]
    have hr : ((⟨r.toNat, by omega⟩ : Fin 8) : ℤ) = r := by
      simp [Int.toNat_of_nonneg h.1]
    have hc : ((⟨c.toNat, by omega⟩ : Fin 8) : ℤ) = c := by
      simp [Int.toNat_of_nonneg h.2.2.1]
    rw [hr, hc]
    by_cases h2 : r = r0 ∧ c = c0
    · rw [if_pos h2, if_pos ⟨h2.1, h2.2, h⟩]
    · rw [if_neg h2, if_neg (by tauto)]
  · rw [dif_neg h, dif_neg h, if_neg (by tauto)]

theorem otherColor_ne (c : Color) : otherColor c ≠ c := by
  cases c <;> simp [otherColor]


theorem mem_distList {a d : ℤ} : d ∈ distList a ↔ 1 ≤ d ∧ d < a := by
  unfold distList
  rw [List.mem_map]
  constructor
  · rintro ⟨i, hi, rfl⟩
    rw [List.mem_range] at hi
    omega
  · rintro ⟨h1, h2⟩
    refine ⟨(d - 1).toNat, ?_, ?_⟩
    · rw [List.mem_range]; omega
    · omega

theorem kingScanPath_spec (board : Board) (piece : Piece) (fr fc dirR dirC : ℤ) :
    ∀ (dists : List ℤ) (fe : Bool),
      kingScanPath board piece fr fc dirR dirC dists fe =
        (if (dists.map fun dist =>
              bget board (fr + dirR * dist) (fc + dirC * dist)).countP (isOwn piece) = 0 ∧
            (dists.map fun dist =>
              bget board (fr + dirR * dist) (fc + dirC * dist)).countP (isEnemy piece) +
              (if fe then 1 else 0) ≤ 1 then
          some (fe || decide ((dists.map fun dist =>
              bget board (fr + dirR * dist) (fc + dirC * dist)).countP (isEnemy piece) = 1))
        else none) := by
  intro dists
  induction dists with
  | nil =>
    intro fe
    cases fe <;> simp [kingScanPath]
  | cons d rest ih =>
    intro fe
    simp only [kingScanPath, List.map_cons, List.countP_cons]
    cases hcell : bget board (fr + dirR * d) (fc + dirC * d) with
    | none =>
      rw [ih fe]
      simp [isOwn, isEnemy]
    | some q =>
      dsimp only
      by_cases hq : q.toLowerCase = piece.toLowerCase
      · have h1 : isOwn piece (some q) = true := by simp [isOwn, hq]
        have h2 : isEnemy piece (some q) = false := by simp [isEnemy, hq]
        rw [if_pos hq]
        simp only [h1, h2, eq_self_iff_true, Bool.false_eq_true, if_true, if_false]
        rw [if_neg (by omega)]
      · have h1 : isOwn piece (some q) = false := by simp [isOwn, hq]
        have h2 : isEnemy piece (some q) = true := by simp [isEnemy, hq]
        rw [if_neg hq]
        cases fe with
        | true =>
          simp only [h1, h2, eq_self_iff_true, Bool.false_eq_true, if_true, if_false]
          rw [if_neg (by omega)]
        | false =>
          simp only [h1, h2, eq_self_iff_true, Bool.false_eq_true, if_true, if_false]
          rw [ih true]
          simp only [eq_self_iff_true, if_true, Nat.add_zero, Bool.true_or, Bool.false_or]
          split_ifs with hA
          · have h0 : (rest.map fun dist =>
                bget board (fr + dirR * dist) (fc + dirC * dist)).countP (isEnemy piece) = 0 := by
              omega
            rw [h0]
            norm_num
          · rfl

theorem isValidKingMove_diag {game : Game} {fromPos toPos : Pos} {piece : Piece}
    {mcf : Option Pos} (h : isValidKingMove game fromPos toPos piece mcf = true) :
    |toPos.row - fromPos.row| = |toPos.col - fromPos.col| := by
  unfold isValidKingMove at h
  dsimp only at h
  by_cases k1 : |toPos.row - fromPos.row| ≠ |toPos.col - fromPos.col|
  · rw [if_pos k1] at h
    exact absurd h (by simp)
  · exact not_not.mp k1

set_option maxHeartbeats 2000000 in
theorem isValidMovePiece_facts {game : Game} {fromPos toPos : Pos}
    {playerColor : Color} {piece : Piece}
    (h : isValidMovePiece game fromPos toPos playerColor piece = true) :
    piece.toLowerCase = playerColor ∧
    bget game.board toPos.row toPos.col = none ∧
    |toPos.row - fromPos.row| = |toPos.col - fromPos.col| := by
  unfold isValidMovePiece at h
  by_cases h1 : piece.toLowerCase ≠ playerColor
  · rw [if_pos h1] at h; exact absurd h (by simp)
  rw [if_neg h1] at h
  rw [not_not] at h1
  by_cases h2 : mustContinueMismatch game.mustContinueFrom fromPos = true
  · rw [if_pos h2] at h; exact absurd h (by simp)
  rw [if_neg h2] at h
  by_cases h3 : (bget game.board toPos.row toPos.col).isSome = true
  · rw [if_pos h3] at h; exact absurd h (by simp)
  rw [if_neg h3] at h
  refine ⟨h1, Option.not_isSome_iff_eq_none.mp h3, ?_⟩
  by_cases h4 : computeIsCapture game.board piece fromPos toPos = false ∧
      playerHasAnyCapture game playerColor = true
  · rw [if_pos h4] at h; exact absurd h (by simp)
  rw [if_neg h4] at h
  by_cases h5 : piece.isKing = true
  · rw [if_pos h5] at h
    exact isValidKingMove_diag h
  rw [if_neg h5] at h
  by_cases h6 : computeIsCapture game.board piece fromPos toPos = false ∧
      ¬(|toPos.row - fromPos.row| = 1 ∧ |toPos.col - fromPos.col| = 1)
  · rw [if_pos h6] at h; exact absurd h (by simp)
  rw [if_neg h6] at h
  by_cases h7 : computeIsCapture game.board piece fromPos toPos = true
  · -- a man capture: the classification for a non-king is the 2x2 shape test
    rw [Bool.not_eq_true] at h5
    unfold computeIsCapture at h7
    rw [h5] at h7
    simp only [Bool.false_eq_true, if_false] at h7
    rw [decide_eq_true_eq] at h7
    omega
  · -- a man simple move
    have hcap : computeIsCapture game.board piece fromPos toPos = false := by
      cases hc : computeIsCapture game.board piece fromPos toPos
      · rfl
      · exact absurd hc h7
    have hsimple : |toPos.row - fromPos.row| = 1 ∧ |toPos.col - fromPos.col| = 1 := by
      by_contra hcon
      exact h6 ⟨hcap, hcon⟩
    omega

theorem isValidMove_outer_facts {game : Game} {fromPos toPos : Pos}
    {playerColor : Color}
    (h : isValidMove game fromPos toPos playerColor = true) :
    game.status = Status.playing ∧
    game.currentPlayer = playerColor ∧
    ¬(fromPos.row = toPos.row ∧ fromPos.col = toPos.col) ∧
    (0 ≤ toPos.row ∧ toPos.row < 8 ∧ 0 ≤ toPos.col ∧ toPos.col < 8) ∧
    ∃ p, bget game.board fromPos.row fromPos.col = some p ∧
      isValidMovePiece game fromPos toPos playerColor p = true := by
  unfold isValidMove at h
  by_cases h1 : game.status ≠ Status.playing
  · rw [if_pos h1] at h; exact absurd h (by simp)
  rw [if_neg h1] at h
  by_cases h2 : game.currentPlayer ≠ playerColor
  · rw [if_pos h2] at h; exact absurd h (by simp)
  rw [if_neg h2] at h
  by_cases h3 : fromPos.row = toPos.row ∧ fromPos.col = toPos.col
  · rw [if_pos h3] at h; exact absurd h (by simp)
  rw [if_neg h3] at h
  by_cases h4 : toPos.row < 0 ∨ 8 ≤ toPos.row ∨ toPos.col < 0 ∨ 8 ≤ toPos.col
  · rw [if_pos h4] at h; exact absurd h (by simp)
  rw [if_neg h4] at h
  cases hb : bget game.board fromPos.row fromPos.col with
  | none => rw [hb] at h; exact absurd h (by simp)
  | some p =>
    rw [hb] at h
    exact ⟨not_not.mp h1, not_not.mp h2, h3, by omega, p, rfl, h⟩

/-- C4: once `mustContinueFrom` is set, every move from a different origin
square is rejected, for any color and shape. -/
theorem chain_restricts_origin (game : Game) (fromPos toPos : Pos)
    (playerColor : Color) (m : Pos)
    (hm : game.mustContinueFrom = some m) (hne : fromPos ≠ m) :
    isValidMove game fromPos toPos playerColor = false := by
  unfold isValidMove
  by_cases h1 : game.status ≠ Status.playing
  · rw [if_pos h1]
  rw [if_neg h1]
  by_cases h2 : game.currentPlayer ≠ playerColor
  · rw [if_pos h2]
  rw [if_neg h2]
  by_cases h3 : fromPos.row = toPos.row ∧ fromPos.col = toPos.col
  · rw [if_pos h3]
  rw [if_neg h3]
  by_cases h4 : toPos.row < 0 ∨ 8 ≤ toPos.row ∨ toPos.col < 0 ∨ 8 ≤ toPos.col
  · rw [if_pos h4]
  rw [if_neg h4]
  cases hb : bget game.board fromPos.row fromPos.col with
  | none => rfl
  | some p =>
    dsimp only
    unfold isValidMovePiece
    by_cases h5 : p.toLowerCase ≠ playerColor
    · rw [if_pos h5]
    rw [if_neg h5]
    have hmm : mustContinueMismatch game.mustContinueFrom fromPos = true := by
      rw [hm]
      simp only [mustContinueMismatch, decide_eq_true_eq]
      by_contra hcon
      push_neg at hcon
      apply hne
      cases fromPos
      cases m
      simp_all
    rw [if_pos hmm]

/-- C1: in a playing state where the current player has a capture available,
every proposed move of theirs that the engine classifies as simple
(non-capture) is rejected, regardless of shape. -/
theorem forced_capture_rejects_simple (game : Game) (fromPos toPos : Pos)
    (_hstatus : game.status = Status.playing)
    (hcap : playerHasAnyCapture game game.currentPlayer = true)
    (hclass : classifiesAsCapture game fromPos toPos = false) :
    isValidMove game fromPos toPos game.currentPlayer = false := by
  unfold isValidMove
  by_cases h1 : game.status ≠ Status.playing
  · rw [if_pos h1]
  rw [if_neg h1]
  rw [if_neg (by simp)]
  by_cases h3 : fromPos.row = toPos.row ∧ fromPos.col = toPos.col
  · rw [if_pos h3]
  rw [if_neg h3]
  by_cases h4 : toPos.row < 0 ∨ 8 ≤ toPos.row ∨ toPos.col < 0 ∨ 8 ≤ toPos.col
  · rw [if_pos h4]
  rw [if_neg h4]
  cases hb : bget game.board fromPos.row fromPos.col with
  | none => rfl
  | some p =>
    dsimp only
    unfold isValidMovePiece
    by_cases h5 : p.toLowerCase ≠ game.currentPlayer
    · rw [if_pos h5]
    rw [if_neg h5]
    by_cases h6 : mustContinueMismatch game.mustContinueFrom fromPos = true
    · rw [if_pos h6]
    rw [if_neg h6]
    by_cases h7 : (bget game.board toPos.row toPos.col).isSome = true
    · rw [if_pos h7]
    rw [if_neg h7]
    have hcic : computeIsCapture game.board p fromPos toPos = false := by
      unfold classifiesAsCapture at hclass
      rw [hb] at hclass
      dsimp only at hclass
      exact hclass
    rw [if_pos ⟨hcic, hcap⟩]

theorem forced_capture_rejects_simple_witness :
    forcedGame.status = Status.playing ∧
    playerHasAnyCapture forcedGame forcedGame.currentPlayer = true ∧
    classifiesAsCapture forcedGame ⟨5, 2⟩ ⟨6, 3⟩ = false ∧
    isValidMove forcedGame ⟨5, 2⟩ ⟨6, 3⟩ forcedGame.currentPlayer = false :=
  ⟨by decide, by decide, by decide,
    forced_capture_rejects_simple forcedGame ⟨5, 2⟩ ⟨6, 3⟩
      (by decide) (by decide) (by decide)⟩

theorem chain_restricts_origin_witness :
    chainGame.mustContinueFrom = some ⟨2, 1⟩ ∧ (⟨5, 0⟩ : Pos) ≠ ⟨2, 1⟩ ∧
    isValidMove chainGame ⟨5, 0⟩ ⟨4, 1⟩ Color.w = false :=
  ⟨by decide, by decide,
    chain_restricts_origin chainGame ⟨5, 0⟩ ⟨4, 1⟩ Color.w ⟨2, 1⟩
      (by decide) (by decide)⟩

theorem applyMove_winner_status (game : Game) (fromPos toPos : Pos) :
    (applyMove game fromPos toPos).winner = game.winner ∧
    (applyMove game fromPos toPos).status = game.status := by
  unfold applyMove
  cases hb : bget game.board fromPos.row fromPos.col with
  | none => exact ⟨rfl, rfl⟩
  | some p =>
    dsimp only
    split_ifs <;> exact ⟨rfl, rfl⟩

/-- C9: no engine operation ever assigns a winner or finishes the game. -/
theorem engine_never_sets_winner (g : Game) (h : Reachable g) :
    g.winner = none ∧ g.status ≠ Status.finished := by
  induction h with
  | init => exact ⟨rfl, by decide⟩
  | start g hg ih => exact ⟨ih.1, by simp⟩
  | step g f t c hg hv ih =>
    obtain ⟨hw, hs⟩ := applyMove_winner_status g f t
    exact ⟨hw.trans ih.1, by rw [hs]; exact ih.2⟩

theorem engine_never_sets_winner_witness :
    createNewGame.winner = none ∧ createNewGame.status ≠ Status.finished :=
  engine_never_sets_winner createNewGame Reachable.init

theorem hasCaptureFrom_congr {g g' : Game} (hb : g.board = g'.board) (r c : ℤ) :
    hasCaptureFrom g r c = hasCaptureFrom g' r c := by
  cases g
  cases g'
  cases hb
  rfl

/-- The continuation decision at the end of `applyMove` (lines 427-432),
as a case split usable by the turn-invariant proofs. -/
theorem applyMove_cases (game : Game) (fromPos toPos : Pos) (p : Piece)
    (hb : bget game.board fromPos.row fromPos.col = some p) :
    (moveDidCapture game fromPos toPos = true ∧
       hasCaptureFrom (applyMove game fromPos toPos) toPos.row toPos.col = true ∧
       applyMove game fromPos toPos =
         { game with board := (applyMove game fromPos toPos).board,
                     mustContinueFrom := some toPos }) ∨
    (¬(moveDidCapture game fromPos toPos = true ∧
        hasCaptureFrom (applyMove game fromPos toPos) toPos.row toPos.col = true) ∧
       applyMove game fromPos toPos =
         { game with board := (applyMove game fromPos toPos).board,
                     mustContinueFrom := none,
                     currentPlayer := otherColor game.currentPlayer }) := by
  unfold applyMove moveDidCapture
  rw [hb]
  dsimp only
  split_ifs with hcond
  · exact Or.inl ⟨hcond.1,
      (hasCaptureFrom_congr rfl toPos.row toPos.col).trans hcond.2, rfl⟩
  · exact Or.inr ⟨fun hc => hcond
      ⟨hc.1, (hasCaptureFrom_congr rfl toPos.row toPos.col).trans hc.2⟩, rfl⟩

/-- C3: after every accepted and applied move, either (a) the mover stays on
turn and `mustContinueFrom` is the landing square — which holds exactly when
the move captured and a further capture is available from the landing
square — or (b) the turn flips to the other color and `mustContinueFrom`
clears; exactly one of the two holds. -/
theorem applyMove_turn_invariant (game : Game) (fromPos toPos : Pos)
    (playerColor : Color)
    (h : isValidMove game fromPos toPos playerColor = true) :
    (((applyMove game fromPos toPos).currentPlayer = game.currentPlayer ∧
      (applyMove game fromPos toPos).mustContinueFrom = some toPos) ↔
      (moveDidCapture game fromPos toPos = true ∧
       hasCaptureFrom (applyMove game fromPos toPos) toPos.row toPos.col = true)) ∧
    (((applyMove game fromPos toPos).currentPlayer = game.currentPlayer ∧
      (applyMove game fromPos toPos).mustContinueFrom = some toPos) ∨
     ((applyMove game fromPos toPos).currentPlayer = otherColor game.currentPlayer ∧
      (applyMove game fromPos toPos).mustContinueFrom = none)) ∧
    ¬(((applyMove game fromPos toPos).currentPlayer = game.currentPlayer ∧
       (applyMove game fromPos toPos).mustContinueFrom = some toPos) ∧
      ((applyMove game fromPos toPos).currentPlayer = otherColor game.currentPlayer ∧
       (applyMove game fromPos toPos).mustContinueFrom = none)) := by
  obtain ⟨-, -, -, -, p, hb, -⟩ := isValidMove_outer_facts h
  rcases applyMove_cases game fromPos toPos p hb with
    ⟨hdid, hcap, hrec⟩ | ⟨hncap, hrec⟩
  · have hcur : (applyMove game fromPos toPos).currentPlayer = game.currentPlayer := by
      rw [hrec]
    have hmcf : (applyMove game fromPos toPos).mustContinueFrom = some toPos := by
      rw [hrec]
    refine ⟨⟨fun _ => ⟨hdid, hcap⟩, fun _ => ⟨hcur, hmcf⟩⟩, Or.inl ⟨hcur, hmcf⟩, ?_⟩
    rintro ⟨⟨ha, -⟩, ⟨hc, -⟩⟩
    exact otherColor_ne game.currentPlayer (hc.symm.trans ha)
  · have hcur : (applyMove game fromPos toPos).currentPlayer =
        otherColor game.currentPlayer := by
      rw [hrec]
    have hmcf : (applyMove game fromPos toPos).mustContinueFrom = none := by
      rw [hrec]
    refine ⟨⟨fun hpa => ?_, fun hc => absurd hc hncap⟩, Or.inr ⟨hcur, hmcf⟩, ?_⟩
    · exact absurd (hmcf.symm.trans hpa.2) (by simp)
    · rintro ⟨⟨-, ha⟩, -⟩
      exact absurd (hmcf.symm.trans ha) (by simp)

theorem applyMove_turn_invariant_witness :
    isValidMove playingInitial ⟨5, 0⟩ ⟨4, 1⟩ Color.w = true ∧
    ((((applyMove playingInitial ⟨5, 0⟩ ⟨4, 1⟩).currentPlayer =
        playingInitial.currentPlayer ∧
      (applyMove playingInitial ⟨5, 0⟩ ⟨4, 1⟩).mustContinueFrom = some ⟨4, 1⟩) ↔
      (moveDidCapture playingInitial ⟨5, 0⟩ ⟨4, 1⟩ = true ∧
       hasCaptureFrom (applyMove playingInitial ⟨5, 0⟩ ⟨4, 1⟩) 4 1 = true)) ∧
    ((((applyMove playingInitial ⟨5, 0⟩ ⟨4, 1⟩).currentPlayer =
        playingInitial.currentPlayer ∧
      (applyMove playingInitial ⟨5, 0⟩ ⟨4, 1⟩).mustContinueFrom = some ⟨4, 1⟩)) ∨
     ((applyMove playingInitial ⟨5, 0⟩ ⟨4, 1⟩).currentPlayer =
        otherColor playingInitial.currentPlayer ∧
      (applyMove playingInitial ⟨5, 0⟩ ⟨4, 1⟩).mustContinueFrom = none)) ∧
    ¬((((applyMove playingInitial ⟨5, 0⟩ ⟨4, 1⟩).currentPlayer =
        playingInitial.currentPlayer ∧
      (applyMove playingInitial ⟨5, 0⟩ ⟨4, 1⟩).mustContinueFrom = some ⟨4, 1⟩)) ∧
      ((applyMove playingInitial ⟨5, 0⟩ ⟨4, 1⟩).currentPlayer =
        otherColor playingInitial.currentPlayer ∧
      (applyMove playingInitial ⟨5, 0⟩ ⟨4, 1⟩).mustContinueFrom = none))) :=
  ⟨by decide,
    applyMove_turn_invariant playingInitial ⟨5, 0⟩ ⟨4, 1⟩ Color.w (by decide)⟩

theorem applyMove_board {game : Game} {fromPos toPos : Pos} {p : Piece}
    (hp : bget game.board fromPos.row fromPos.col = some p) :
    (applyMove game fromPos toPos).board =
      applyMoveBoard game.board p fromPos toPos := by
  unfold applyMove
  rw [hp]
  dsimp only
  split_ifs <;> rfl

theorem applyMoveBoard_dest (board : Board) (piece : Piece) (fromPos toPos : Pos)
    (ht : 0 ≤ toPos.row ∧ toPos.row < 8 ∧ 0 ≤ toPos.col ∧ toPos.col < 8) :
    bget (applyMoveBoard board piece fromPos toPos) toPos.row toPos.col =
      some (if piece = Piece.w ∧ toPos.row = 0 then Piece.W
            else if piece = Piece.b ∧ toPos.row = 7 then Piece.B
            else piece) := by
  unfold applyMoveBoard
  dsimp only
  split_ifs with h1 h2 <;> rw [bget_bset, if_pos ⟨rfl, rfl, ht⟩]

theorem bget_bset_cases (b : Board) (r0 c0 : ℤ) (v : Option Piece) (r c : ℤ) :
    bget (bset b r0 c0 v) r c = v ∨ bget (bset b r0 c0 v) r c = bget b r c := by
  rw [bget_bset]
  split_ifs
  · exact Or.inl rfl
  · exact Or.inr rfl

theorem applyMoveCapture_subset (board : Board) (piece : Piece)
    (fromPos toPos : Pos) (r c : ℤ) :
    bget (applyMoveCapture board piece fromPos toPos).1 r c = bget board r c ∨
    bget (applyMoveCapture board piece fromPos toPos).1 r c = none := by
  unfold applyMoveCapture
  dsimp only
  by_cases h1 : piece.isKing = true
  · rw [if_pos h1]
    cases hf : (distList |toPos.row - fromPos.row|).find? (fun dist =>
        isEnemy piece (bget board
          (fromPos.row + (if 0 < toPos.row - fromPos.row then 1 else -1) * dist)
          (fromPos.col + (if 0 < toPos.col - fromPos.col then 1 else -1) * dist))) with
    | none => exact Or.inl rfl
    | some dist =>
      dsimp only
      rcases bget_bset_cases board
          (fromPos.row + (if 0 < toPos.row - fromPos.row then 1 else -1) * dist)
          (fromPos.col + (if 0 < toPos.col - fromPos.col then 1 else -1) * dist)
          none r c with hx | hx
      · exact Or.inr hx
      · exact Or.inl hx
  · rw [if_neg h1]
    by_cases h2 : |toPos.row - fromPos.row| = 2 ∧ |toPos.col - fromPos.col| = 2
    · rw [if_pos h2]
      dsimp only
      rcases bget_bset_cases board
          (fromPos.row + (toPos.row - fromPos.row) / 2)
          (fromPos.col + (toPos.col - fromPos.col) / 2)
          none r c with hx | hx
      · exact Or.inr hx
      · exact Or.inl hx
    · rw [if_neg h2]
      exact Or.inl rfl

theorem applyMoveBoard_elsewhere (board : Board) (piece : Piece)
    (fromPos toPos : Pos) (r c : ℤ)
    (hne : ¬(r = toPos.row ∧ c = toPos.col)) :
    bget (applyMoveBoard board piece fromPos toPos) r c = bget board r c ∨
    bget (applyMoveBoard board piece fromPos toPos) r c = none := by
  have hstep : ∀ b2 : Board,
      bget (bset b2 toPos.row toPos.col (some piece)) r c = bget b2 r c := by
    intro b2
    rw [bget_bset, if_neg (by tauto)]
  have hone : bget (bset board fromPos.row fromPos.col none) r c = bget board r c ∨
      bget (bset board fromPos.row fromPos.col none) r c = none := by
    rw [bget_bset]
    split_ifs with hx
    · exact Or.inr rfl
    · exact Or.inl rfl
  unfold applyMoveBoard
  dsimp only
  have hcap := applyMoveCapture_subset
    (bset board fromPos.row fromPos.col none) piece fromPos toPos r c
  split_ifs with h1 h2
  · rw [bget_bset, if_neg (by tauto), hstep]
    rcases hcap with hc | hc
    · rw [hc]; exact hone
    · exact Or.inr hc
  · rw [bget_bset, if_neg (by tauto), hstep]
    rcases hcap with hc | hc
    · rw [hc]; exact hone
    · exact Or.inr hc
  · rw [hstep]
    rcases hcap with hc | hc
    · rw [hc]; exact hone
    · exact Or.inr hc

/-- C7: for every legal move, the piece at the landing square after
`applyMove` is the moved piece, promoted to a king exactly when a white man
lands on row 0 or a black man on row 7 (evaluated at the landing square after
capture removal and placement); and no king anywhere on the board is ever
demoted — a square holding a king afterwards holds the same king or is
empty. -/
theorem applyMove_promotion (game : Game) (fromPos toPos : Pos)
    (playerColor : Color) (p : Piece)
    (h : isValidMove game fromPos toPos playerColor = true)
    (hp : bget game.board fromPos.row fromPos.col = some p) :
    bget (applyMove game fromPos toPos).board toPos.row toPos.col =
      some (if p = Piece.w ∧ toPos.row = 0 then Piece.W
            else if p = Piece.b ∧ toPos.row = 7 then Piece.B
            else p) ∧
    (∀ r c q, bget game.board r c = some q → q.isKing = true →
      bget (applyMove game fromPos toPos).board r c = some q ∨
      bget (applyMove game fromPos toPos).board r c = none) := by
  obtain ⟨-, -, -, hbound, p2, hb2, hpv⟩ := isValidMove_outer_facts h
  have hp2 : p2 = p := by rw [hp] at hb2; exact (Option.some_injective _ hb2).symm
  rw [hp2] at hpv
  obtain ⟨-, hto, -⟩ := isValidMovePiece_facts hpv
  rw [applyMove_board hp]
  constructor
  · exact applyMoveBoard_dest game.board p fromPos toPos hbound
  · intro r c q hq hking
    by_cases hrc : r = toPos.row ∧ c = toPos.col
    · rw [hrc.1, hrc.2, hto] at hq
      exact Option.noConfusion hq
    · rcases applyMoveBoard_elsewhere game.board p fromPos toPos r c hrc with he | he
      · rw [he, hq]
        exact Or.inl rfl
      · exact Or.inr he

theorem applyMove_promotion_witness :
    isValidMove promoGame ⟨1, 0⟩ ⟨0, 1⟩ Color.w = true ∧
    bget promoGame.board 1 0 = some Piece.w ∧
    bget (applyMove promoGame ⟨1, 0⟩ ⟨0, 1⟩).board 0 1 = some Piece.W := by
  refine ⟨by decide, by decide, ?_⟩
  have := (applyMove_promotion promoGame ⟨1, 0⟩ ⟨0, 1⟩ Color.w Piece.w
    (by decide) (by decide)).1
  simpa using this

theorem createNewGame_dark (r c : ℤ)
    (hsome : (bget createNewGame.board r c).isSome = true) : (r + c) % 2 = 1 := by
  have hb := bget_isSome_bounds hsome
  unfold bget at hsome
  rw [dif_pos hb] at hsome
  unfold createNewGame createInitialBoard at hsome
  dsimp only at hsome
  split_ifs at hsome with p1 p2
  · omega
  · omega
  · simp at hsome

theorem darkInv_step {game : Game} {fromPos toPos : Pos} {playerColor : Color}
    (h : isValidMove game fromPos toPos playerColor = true)
    (inv : ∀ r c, (bget game.board r c).isSome = true → (r + c) % 2 = 1) :
    ∀ r c, (bget (applyMove game fromPos toPos).board r c).isSome = true →
      (r + c) % 2 = 1 := by
  obtain ⟨-, -, -, hbound, p, hb, hpv⟩ := isValidMove_outer_facts h
  obtain ⟨-, -, hdiag⟩ := isValidMovePiece_facts hpv
  rw [applyMove_board hb]
  intro r c hsome
  by_cases hrc : r = toPos.row ∧ c = toPos.col
  · obtain ⟨hf1, hf2, hf3, hf4⟩ := bget_some_bounds hb
    have hfrom : (fromPos.row + fromPos.col) % 2 = 1 :=
      inv fromPos.row fromPos.col (by rw [hb]; rfl)
    rcases abs_eq_abs.mp hdiag with hd | hd <;> omega
  · rcases applyMoveBoard_elsewhere game.board p fromPos toPos r c hrc with he | he
    · rw [he] at hsome
      exact inv r c hsome
    · rw [he] at hsome
      simp at hsome

/-- C8: in every state reachable from a fresh game by status start and
engine-validated moves, only dark squares (row+col odd) are occupied. -/
theorem reachable_dark_squares (g : Game) (h : Reachable g) :
    ∀ r c, (bget g.board r c).isSome = true → (r + c) % 2 = 1 := by
  induction h with
  | init => exact createNewGame_dark
  | start g hg ih => exact ih
  | step g f t c hg hv ih => exact darkInv_step hv ih

theorem reachable_dark_squares_witness :
    (bget createNewGame.board 5 0).isSome = true ∧ ((5 : ℤ) + 0) % 2 = 1 :=
  ⟨by decide, reachable_dark_squares createNewGame Reachable.init 5 0 (by decide)⟩

/-- C10: when the acting player has no capture available (by the complete
engine's scan) and the piece at the origin is not a king, the predecessor
engine and the complete engine agree on every move. -/
theorem old_engine_agrees (game : Game) (fromPos toPos : Pos)
    (playerColor : Color)
    (hcap : playerHasAnyCapture game playerColor = false)
    (hking : Option.all (fun p => !p.isKing)
      (bget game.board fromPos.row fromPos.col) = true) :
    Old.isValidMove game fromPos toPos playerColor =
      isValidMove game fromPos toPos playerColor := by
  unfold Old.isValidMove isValidMove
  by_cases h1 : game.status ≠ Status.playing
  · rw [if_pos h1, if_pos h1]
  rw [if_neg h1, if_neg h1]
  by_cases h2 : game.currentPlayer ≠ playerColor
  · rw [if_pos h2, if_pos h2]
  rw [if_neg h2, if_neg h2]
  by_cases h3 : fromPos.row = toPos.row ∧ fromPos.col = toPos.col
  · rw [if_pos h3, if_pos h3]
  rw [if_neg h3, if_neg h3]
  by_cases h4 : toPos.row < 0 ∨ 8 ≤ toPos.row ∨ toPos.col < 0 ∨ 8 ≤ toPos.col
  · rw [if_pos h4, if_pos h4]
  rw [if_neg h4, if_neg h4]
  cases hb : bget game.board fromPos.row fromPos.col with
  | none => rfl
  | some p =>
    dsimp only
    rw [hb] at hking
    have hk : p.isKing = false := by
      simpa using hking
    unfold Old.isValidMovePiece isValidMovePiece
    by_cases h5 : p.toLowerCase ≠ playerColor
    · rw [if_pos h5, if_pos h5]
    rw [if_neg h5, if_neg h5]
    by_cases h6 : mustContinueMismatch game.mustContinueFrom fromPos = true
    · rw [if_pos h6, if_pos h6]
    rw [if_neg h6, if_neg h6]
    by_cases h7 : (bget game.board toPos.row toPos.col).isSome = true
    · rw [if_pos h7, if_pos h7]
    rw [if_neg h7, if_neg h7]
    have hcic : computeIsCapture game.board p fromPos toPos =
        decide (|toPos.row - fromPos.row| = 2 ∧ |toPos.col - fromPos.col| = 2) := by
      unfold computeIsCapture
      rw [hk]
      simp
    rw [if_neg (show ¬(computeIsCapture game.board p fromPos toPos = false ∧
        playerHasAnyCapture game playerColor = true) by rw [hcap]; simp)]
    rw [if_neg (show ¬(p.isKing = true) by rw [hk]; simp)]
    by_cases hc22 : |toPos.row - fromPos.row| = 2 ∧ |toPos.col - fromPos.col| = 2
    · have hT : computeIsCapture game.board p fromPos toPos = true := by
        rw [hcic]
        simp [hc22]
      rw [if_neg (show ¬(¬(|toPos.row - fromPos.row| = 2 ∧
          |toPos.col - fromPos.col| = 2) ∧
          ¬(|toPos.row - fromPos.row| = 1 ∧ |toPos.col - fromPos.col| = 1))
        from fun hcon => hcon.1 hc22)]
      rw [if_neg (show ¬(computeIsCapture game.board p fromPos toPos = false ∧
          ¬(|toPos.row - fromPos.row| = 1 ∧ |toPos.col - fromPos.col| = 1))
        from fun hcon => by rw [hT] at hcon; exact Bool.noConfusion hcon.1)]
      rw [if_pos hc22, if_pos hT]
    · have hF : computeIsCapture game.board p fromPos toPos = false := by
        rw [hcic]
        simp [hc22]
      by_cases hs11 : |toPos.row - fromPos.row| = 1 ∧ |toPos.col - fromPos.col| = 1
      · rw [if_neg (show ¬(¬(|toPos.row - fromPos.row| = 2 ∧
            |toPos.col - fromPos.col| = 2) ∧
            ¬(|toPos.row - fromPos.row| = 1 ∧ |toPos.col - fromPos.col| = 1))
          from fun hcon => hcon.2 hs11)]
        rw [if_neg (show ¬(computeIsCapture game.board p fromPos toPos = false ∧
            ¬(|toPos.row - fromPos.row| = 1 ∧ |toPos.col - fromPos.col| = 1))
          from fun hcon => hcon.2 hs11)]
        rw [if_neg hc22]
        rw [if_neg (show ¬(computeIsCapture game.board p fromPos toPos = true)
          from fun hcon => by rw [hF] at hcon; exact Bool.noConfusion hcon)]
        by_cases hm : game.mustContinueFrom.isSome = true
        · rw [if_pos hm, if_pos hm]
        rw [if_neg hm, if_neg hm]
        by_cases hw : p.toLowerCase = Color.w ∧ 0 ≤ toPos.row - fromPos.row
        · rw [if_pos ⟨hk, hw.1, hw.2⟩, if_pos hw]
        rw [if_neg (fun hcon => hw ⟨hcon.2.1, hcon.2.2⟩), if_neg hw]
        by_cases hbk : p.toLowerCase ≠ Color.w ∧ toPos.row - fromPos.row ≤ 0
        · rw [if_pos ⟨hk, hbk.1, hbk.2⟩, if_pos hbk]
        rw [if_neg (fun hcon => hbk ⟨hcon.2.1, hcon.2.2⟩), if_neg hbk]
      · rw [if_pos ⟨hc22, hs11⟩, if_pos ⟨hF, hs11⟩]

theorem old_engine_agrees_witness :
    playerHasAnyCapture playingInitial Color.w = false ∧
    Old.isValidMove playingInitial ⟨5, 0⟩ ⟨4, 1⟩ Color.w =
      isValidMove playingInitial ⟨5, 0⟩ ⟨4, 1⟩ Color.w :=
  ⟨by decide,
    old_engine_agrees playingInitial ⟨5, 0⟩ ⟨4, 1⟩ Color.w (by decide) (by decide)⟩

theorem any_iff_countP {α : Type} (l : List α) (q : α → Bool) :
    l.any q = true ↔ 0 < l.countP q := by
  rw [List.any_eq_true, List.countP_pos_iff]

theorem isValidMove_outer_reduce (game : Game) (fromPos toPos : Pos)
    (playerColor : Color) (p : Piece)
    (hst : game.status = Status.playing)
    (hcur : game.currentPlayer = playerColor)
    (hne : ¬(fromPos.row = toPos.row ∧ fromPos.col = toPos.col))
    (hbound : 0 ≤ toPos.row ∧ toPos.row < 8 ∧ 0 ≤ toPos.col ∧ toPos.col < 8)
    (hb : bget game.board fromPos.row fromPos.col = some p) :
    isValidMove game fromPos toPos playerColor =
      isValidMovePiece game fromPos toPos playerColor p := by
  unfold isValidMove
  rw [if_neg (by simp [hst]), if_neg (by simp [hcur]), if_neg hne,
      if_neg (by omega), hb]

theorem isValidMovePiece_king_capture (game : Game) (fromPos toPos : Pos)
    (playerColor : Color) (p : Piece)
    (hcol : p.toLowerCase = playerColor)
    (hchain : ∀ m, game.mustContinueFrom = some m → m = fromPos)
    (hdest : bget game.board toPos.row toPos.col = none)
    (hk : p.isKing = true)
    (hclass : computeIsCapture game.board p fromPos toPos = true) :
    isValidMovePiece game fromPos toPos playerColor p =
      isValidKingMove game fromPos toPos p game.mustContinueFrom := by
  have hmm : mustContinueMismatch game.mustContinueFrom fromPos = false := by
    cases hmcf : game.mustContinueFrom with
    | none => rfl
    | some m =>
      have := hchain m hmcf
      subst this
      simp [mustContinueMismatch]
  unfold isValidMovePiece
  rw [if_neg (by simp [hcol]), if_neg (by simp [hmm]),
      if_neg (by simp [hdest]),
      if_neg (show ¬(computeIsCapture game.board p fromPos toPos = false ∧
        playerHasAnyCapture game playerColor = true)
        from fun hcon => by rw [hclass] at hcon; exact Bool.noConfusion hcon.1),
      if_pos hk]

theorem isValidKingMove_capture_iff (game : Game) (fromPos toPos : Pos) (p : Piece)
    (hne : ¬(fromPos.row = toPos.row ∧ fromPos.col = toPos.col))
    (hdest : bget game.board toPos.row toPos.col = none)
    (hk : p.isKing = true) :
    (isValidKingMove game fromPos toPos p game.mustContinueFrom = true ∧
     computeIsCapture game.board p fromPos toPos = true) ↔
    (|toPos.row - fromPos.row| = |toPos.col - fromPos.col| ∧
     (pathCells game.board fromPos toPos).countP (isEnemy p) = 1 ∧
     (pathCells game.board fromPos toPos).countP (isOwn p) = 0) := by
  have hcc : computeIsCapture game.board p fromPos toPos =
      ((distList |toPos.row - fromPos.row|).any fun dist =>
        isEnemy p (bget game.board
          (fromPos.row + (if 0 < toPos.row - fromPos.row then 1 else -1) * dist)
          (fromPos.col + (if 0 < toPos.col - fromPos.col then 1 else -1) * dist))) := by
    unfold computeIsCapture
    rw [hk]
    simp
  have hany : computeIsCapture game.board p fromPos toPos = true ↔
      0 < (pathCells game.board fromPos toPos).countP (isEnemy p) := by
    rw [hcc]
    unfold pathCells
    rw [List.countP_map, any_iff_countP]
    rfl
  constructor
  · rintro ⟨hv, hcap⟩
    unfold isValidKingMove at hv
    dsimp only at hv
    by_cases hd : |toPos.row - fromPos.row| ≠ |toPos.col - fromPos.col|
    · rw [if_pos hd] at hv
      exact absurd hv (by simp)
    rw [if_neg hd] at hv
    rw [not_not] at hd
    by_cases h1 : |toPos.row - fromPos.row| < 1
    · rw [if_pos h1] at hv
      exact absurd hv (by simp)
    rw [if_neg h1] at hv
    rw [kingScanPath_spec] at hv
    simp only [Bool.false_eq_true, if_false, Nat.add_zero, Bool.false_or] at hv
    by_cases hC : ((distList |toPos.row - fromPos.row|).map fun dist =>
          bget game.board
            (fromPos.row + (if 0 < toPos.row - fromPos.row then 1 else -1) * dist)
            (fromPos.col + (if 0 < toPos.col - fromPos.col then 1 else -1) * dist)).countP
            (isOwn p) = 0 ∧
        ((distList |toPos.row - fromPos.row|).map fun dist =>
          bget game.board
            (fromPos.row + (if 0 < toPos.row - fromPos.row then 1 else -1) * dist)
            (fromPos.col + (if 0 < toPos.col - fromPos.col then 1 else -1) * dist)).countP
            (isEnemy p) ≤ 1
    · rw [if_pos hC] at hv
      dsimp only at hv
      rw [hdest] at hv
      simp only [Option.isSome_none, Bool.false_eq_true, if_false] at hv
      have hEpos : 0 < (pathCells game.board fromPos toPos).countP (isEnemy p) :=
        hany.mp hcap
      unfold pathCells at hEpos
      refine ⟨hd, ?_, ?_⟩
      · unfold pathCells
        have hEle := hC.2
        omega
      · unfold pathCells
        exact hC.1
    · rw [if_neg hC] at hv
      exact absurd hv (by simp)
  · rintro ⟨hdiag, hE, hO⟩
    refine ⟨?_, hany.mpr (by omega)⟩
    unfold pathCells at hE hO
    unfold isValidKingMove
    dsimp only
    rw [if_neg (not_not_intro hdiag)]
    have h1 : ¬(|toPos.row - fromPos.row| < 1) := by
      intro hlt
      have hnn := abs_nonneg (toPos.row - fromPos.row)
      have hz : |toPos.row - fromPos.row| = 0 := by omega
      have hdr0 : toPos.row - fromPos.row = 0 := abs_eq_zero.mp hz
      have hzc : |toPos.col - fromPos.col| = 0 := by omega
      have hdc0 : toPos.col - fromPos.col = 0 := abs_eq_zero.mp hzc
      exact hne ⟨by omega, by omega⟩
    rw [if_neg h1]
    rw [kingScanPath_spec]
    simp only [Bool.false_eq_true, if_false, Nat.add_zero, Bool.false_or]
    rw [if_pos ⟨hO, by omega⟩]
    dsimp only
    rw [hdest]
    simp only [Option.isSome_none, Bool.false_eq_true, if_false]
    rw [if_pos (by rw [hE]; simp)]

/-- C2: under the §4.3 preconditions (playing status, correct turn, own king
at the origin, distinct on-board empty destination, chain constraint
satisfied), a king's move is a legal capture iff it is strictly diagonal and
the traversed squares hold exactly one enemy piece and no own piece (hence
are otherwise empty); in particular, in Scenario C the move (4,4)→(1,1) is a
legal capture and (4,4)→(0,0) is illegal. -/
theorem king_capture_rule :
    (∀ (game : Game) (fromPos toPos : Pos) (p : Piece),
      game.status = Status.playing →
      game.currentPlayer = p.toLowerCase →
      bget game.board fromPos.row fromPos.col = some p →
      p.isKing = true →
      ¬(fromPos.row = toPos.row ∧ fromPos.col = toPos.col) →
      (0 ≤ toPos.row ∧ toPos.row < 8 ∧ 0 ≤ toPos.col ∧ toPos.col < 8) →
      bget game.board toPos.row toPos.col = none →
      (∀ m, game.mustContinueFrom = some m → m = fromPos) →
      ((isValidMove game fromPos toPos p.toLowerCase = true ∧
        classifiesAsCapture game fromPos toPos = true) ↔
       (|toPos.row - fromPos.row| = |toPos.col - fromPos.col| ∧
        (pathCells game.board fromPos toPos).countP (isEnemy p) = 1 ∧
        (pathCells game.board fromPos toPos).countP (isOwn p) = 0))) ∧
    isValidMove scenC ⟨4, 4⟩ ⟨1, 1⟩ Color.w = true ∧
    classifiesAsCapture scenC ⟨4, 4⟩ ⟨1, 1⟩ = true ∧
    isValidMove scenC ⟨4, 4⟩ ⟨0, 0⟩ Color.w = false := by
  refine ⟨?_, by decide, by decide, by decide⟩
  intro game fromPos toPos p hst hcur hb hk hne hbound hdest hchain
  have hclassEq : classifiesAsCapture game fromPos toPos =
      computeIsCapture game.board p fromPos toPos := by
    unfold classifiesAsCapture
    rw [hb]
  have houter := isValidMove_outer_reduce game fromPos toPos p.toLowerCase p
    hst hcur hne hbound hb
  rw [houter, hclassEq]
  constructor
  · rintro ⟨hv, hcap⟩
    have hred := isValidMovePiece_king_capture game fromPos toPos
      p.toLowerCase p rfl hchain hdest hk hcap
    rw [hred] at hv
    exact (isValidKingMove_capture_iff game fromPos toPos p hne hdest hk).mp
      ⟨hv, hcap⟩
  · intro hdecl
    have both :=
      (isValidKingMove_capture_iff game fromPos toPos p hne hdest hk).mpr hdecl
    have hred := isValidMovePiece_king_capture game fromPos toPos
      p.toLowerCase p rfl hchain hdest hk both.2
    rw [hred]
    exact both

theorem king_capture_rule_witness :
    isValidMove scenC ⟨4, 4⟩ ⟨1, 1⟩ Piece.W.toLowerCase = true ∧
    classifiesAsCapture scenC ⟨4, 4⟩ ⟨1, 1⟩ = true :=
  (king_capture_rule.1 scenC ⟨4, 4⟩ ⟨1, 1⟩ Piece.W (by decide) (by decide)
    (by decide) (by decide) (by decide) (by decide) (by decide)
    (fun m hm => by simp [scenC] at hm)).mpr (by decide)

/-- C6 counterexample: white to move on `forcedBoard` attempts the backward
simple step (5,2)→(6,3).  The handler reports the distinguished mustCapture
outcome, yet the attempt was not rejected solely because a capture was
mandatory: even the engine without the forced-capture rule rejects it (a man
may not step backward), so the claimed iff fails at this input. -/
theorem mustCapture_report_counterexample :
    (makeMove forcedGame ⟨5, 2⟩ ⟨6, 3⟩ Color.w).2 = Emit.mustCapture ∧
    isValidMoveNoForced forcedGame ⟨5, 2⟩ ⟨6, 3⟩ Color.w = false := by
  decide

/-- C6 (amended): for a rejected move request, the handler reports
mustCapture iff the origin holds the acting player's piece, the attempt is
simple-shaped in the handler's geometric sense (`isSimpleMoveAttempt`, which
consults neither turn, nor chain, nor a man's direction), and a capture is
available for that player — not iff the move was rejected solely because a
capture was mandatory. -/
theorem mustCapture_report_iff (game : Game) (fromPos toPos : Pos)
    (playerColor : Color)
    (hrej : isValidMove game fromPos toPos playerColor = false) :
    (makeMove game fromPos toPos playerColor).2 = Emit.mustCapture ↔
    ((∃ p, bget game.board fromPos.row fromPos.col = some p ∧
        p.toLowerCase = playerColor ∧
        isSimpleMoveAttempt game p fromPos toPos = true) ∧
      playerHasAnyCapture game playerColor = true) := by
  unfold makeMove
  rw [if_neg (show ¬(isValidMove game fromPos toPos playerColor = true) by
    rw [hrej]; simp)]
  cases hb : bget game.board fromPos.row fromPos.col with
  | none =>
    dsimp only
    constructor
    · intro hc
      exact absurd hc (by simp)
    · rintro ⟨⟨q, hq, -, -⟩, -⟩
      exact Option.noConfusion hq
  | some p =>
    dsimp only
    by_cases h1 : p.toLowerCase = playerColor
    · rw [if_pos h1]
      by_cases h2 : isSimpleMoveAttempt game p fromPos toPos = true ∧
          playerHasAnyCapture game playerColor = true
      · rw [if_pos h2]
        exact ⟨fun _ => ⟨⟨p, rfl, h1, h2.1⟩, h2.2⟩, fun _ => rfl⟩
      · rw [if_neg h2]
        constructor
        · intro hc
          exact absurd hc (by simp)
        · rintro ⟨⟨q, hq, -, hq2⟩, hcap⟩
          have := Option.some_injective _ hq
          subst this
          exact absurd ⟨hq2, hcap⟩ h2
    · rw [if_neg h1]
      constructor
      · intro hc
        exact absurd hc (by simp)
      · rintro ⟨⟨q, hq, hq1, -⟩, -⟩
        have := Option.some_injective _ hq
        subst this
        exact absurd hq1 h1

theorem mustCapture_report_iff_witness :
    (makeMove forcedGame ⟨5, 2⟩ ⟨6, 3⟩ Color.w).2 = Emit.mustCapture ↔
    ((∃ p, bget forcedGame.board 5 2 = some p ∧
        p.toLowerCase = Color.w ∧
        isSimpleMoveAttempt forcedGame p ⟨5, 2⟩ ⟨6, 3⟩ = true) ∧
      playerHasAnyCapture forcedGame Color.w = true) :=
  mustCapture_report_iff forcedGame ⟨5, 2⟩ ⟨6, 3⟩ Color.w (by decide)

theorem bgetE_ok {b : Board} {r : ℤ} (c : ℤ) (h0 : 0 ≤ r) (h8 : r < 8) :
    bgetE b r c = Except.ok (bget b r c) := by
  unfold bgetE
  rw [if_pos ⟨h0, h8⟩]

theorem regScanDirsE_ok (board : Board) (p : Piece) (row col : ℤ) :
    ∀ dirs : List (ℤ × ℤ),
      regScanDirsE board (some p) row col dirs =
        Except.ok (dirs.any fun d =>
          if row + 2 * d.1 < 0 ∨ 8 ≤ row + 2 * d.1 ∨
              col + 2 * d.2 < 0 ∨ 8 ≤ col + 2 * d.2 ∨
              row + d.1 < 0 ∨ 8 ≤ row + d.1 ∨ col + d.2 < 0 ∨ 8 ≤ col + d.2 then
            false
          else
            match bget board (row + d.1) (col + d.2),
                bget board (row + 2 * d.1) (col + 2 * d.2) with
            | some midPiece, none => midPiece.toLowerCase ≠ p.toLowerCase
            | _, _ => false) := by
  intro dirs
  induction dirs with
  | nil => rfl
  | cons d rest ih =>
    rw [List.any_cons]
    unfold regScanDirsE
    dsimp only
    by_cases h1 : row + 2 * d.1 < 0 ∨ 8 ≤ row + 2 * d.1 ∨
        col + 2 * d.2 < 0 ∨ 8 ≤ col + 2 * d.2 ∨
        row + d.1 < 0 ∨ 8 ≤ row + d.1 ∨ col + d.2 < 0 ∨ 8 ≤ col + d.2
    · rw [if_pos h1, if_pos h1, ih, Bool.false_or]
    rw [if_neg h1, if_neg h1]
    cases hmid : bget board (row + d.1) (col + d.2) with
    | none => rw [ih, Bool.false_or]
    | some midPiece =>
      cases hland : bget board (row + 2 * d.1) (col + 2 * d.2) with
      | none =>
        dsimp only [ebind, jsLowerE]
        by_cases heq : midPiece.toLowerCase = p.toLowerCase
        · rw [if_pos heq, ih]
          simp [heq]
        · rw [if_neg heq]
          simp [heq]
      | some landPiece => rw [ih, Bool.false_or]

theorem hasRegularCaptureFromE_ok {game : Game} {row col : ℤ} {p : Piece}
    (hb : bget game.board row col = some p) :
    hasRegularCaptureFromE game row col =
      Except.ok (hasRegularCaptureFrom game row col) := by
  obtain ⟨h1, h2, -, -⟩ := bget_some_bounds hb
  unfold hasRegularCaptureFromE hasRegularCaptureFrom
  rw [bgetE_ok col h1 h2, hb]
  dsimp only [ebind]
  exact regScanDirsE_ok game.board p row col directions

theorem kingScanDirE_ok (board : Board) (p : Piece) (row col dr dc : ℤ) :
    ∀ (dists : List ℤ) (foundEnemy : Bool),
      kingScanDirE board (some p) row col dr dc dists foundEnemy =
        Except.ok (kingScanDir board p row col dr dc dists foundEnemy) := by
  intro dists
  induction dists with
  | nil => intro fe; rfl
  | cons dist rest ih =>
    intro fe
    unfold kingScanDirE kingScanDir
    dsimp only
    by_cases h1 : row + dr * dist < 0 ∨ 8 ≤ row + dr * dist ∨
        col + dc * dist < 0 ∨ 8 ≤ col + dc * dist
    · rw [if_pos h1, if_pos h1]
    rw [if_neg h1, if_neg h1]
    cases hcell : bget board (row + dr * dist) (col + dc * dist) with
    | none =>
      cases fe with
      | true => rfl
      | false => exact ih false
    | some cp =>
      dsimp only [ebind, jsLowerE]
      by_cases heq : cp.toLowerCase = p.toLowerCase
      · rw [if_pos heq, if_pos heq]
      rw [if_neg heq, if_neg heq]
      cases fe with
      | true => rfl
      | false => exact ih true

theorem kingDirLoopE_ok (board : Board) (p : Piece) (row col : ℤ) :
    ∀ dirs : List (ℤ × ℤ),
      kingDirLoopE board (some p) row col dirs =
        Except.ok (dirs.any fun d =>
          kingScanDir board p row col d.1 d.2 (distList 8) false) := by
  intro dirs
  induction dirs with
  | nil => rfl
  | cons d rest ih =>
    rw [List.any_cons]
    unfold kingDirLoopE
    rw [kingScanDirE_ok]
    dsimp only [ebind]
    cases hscan : kingScanDir board p row col d.1 d.2 (distList 8) false with
    | true => rfl
    | false => rw [ih, Bool.false_or]; simp

theorem hasKingCaptureFromE_ok {game : Game} {row col : ℤ} {p : Piece}
    (hb : bget game.board row col = some p) :
    hasKingCaptureFromE game row col =
      Except.ok (hasKingCaptureFrom game row col) := by
  obtain ⟨h1, h2, -, -⟩ := bget_some_bounds hb
  unfold hasKingCaptureFromE hasKingCaptureFrom
  rw [bgetE_ok col h1 h2, hb]
  dsimp only [ebind]
  exact kingDirLoopE_ok game.board p row col directions

theorem hasCaptureFromE_ok (game : Game) (row col : ℤ) :
    hasCaptureFromE game row col = Except.ok (hasCaptureFrom game row col) := by
  unfold hasCaptureFromE hasCaptureFrom
  cases hb : bget game.board row col with
  | none => rfl
  | some p =>
    dsimp only
    by_cases hk : p.isKing = true
    · rw [if_pos hk, if_pos hk]
      exact hasKingCaptureFromE_ok hb
    · rw [if_neg hk, if_neg hk]
      exact hasRegularCaptureFromE_ok hb

theorem anyCaptureLoopE_ok (game : Game) :
    ∀ l : List (ℤ × ℤ × Piece),
      anyCaptureLoopE game l =
        Except.ok (l.any fun x => hasCaptureFrom game x.1 x.2.1) := by
  intro l
  induction l with
  | nil => rfl
  | cons x rest ih =>
    rw [List.any_cons]
    unfold anyCaptureLoopE
    rw [hasCaptureFromE_ok]
    dsimp only [ebind]
    cases hc : hasCaptureFrom game x.1 x.2.1 with
    | true => rfl
    | false => rw [ih, Bool.false_or]; simp

theorem playerHasAnyCaptureE_ok (game : Game) (playerColor : Color) :
    playerHasAnyCaptureE game playerColor =
      Except.ok (playerHasAnyCapture game playerColor) := by
  unfold playerHasAnyCaptureE playerHasAnyCapture
  cases hm : game.mustContinueFrom with
  | none => exact anyCaptureLoopE_ok game _
  | some m => exact hasCaptureFromE_ok game m.row m.col

theorem distList_row_bounds {fr tr : ℤ} (hf0 : 0 ≤ fr) (hf8 : fr < 8)
    (ht0 : 0 ≤ tr) (ht8 : tr < 8) :
    ∀ dist ∈ distList |tr - fr|,
      0 ≤ fr + (if 0 < tr - fr then 1 else -1) * dist ∧
      fr + (if 0 < tr - fr then 1 else -1) * dist < 8 := by
  intro d hd
  rw [mem_distList] at hd
  rcases le_or_lt (tr - fr) 0 with hle | hlt
  · rw [abs_of_nonpos hle] at hd
    rw [if_neg (by omega)]
    omega
  · rw [abs_of_pos hlt] at hd
    rw [if_pos hlt]
    omega

theorem kingClassifyE_ok (board : Board) (p : Piece) (fr fc dirR dirC : ℤ) :
    ∀ dists : List ℤ,
      (∀ dist ∈ dists, 0 ≤ fr + dirR * dist ∧ fr + dirR * dist < 8) →
      kingClassifyE board p fr fc dirR dirC dists =
        Except.ok (dists.any fun dist =>
          isEnemy p (bget board (fr + dirR * dist) (fc + dirC * dist))) := by
  intro dists
  induction dists with
  | nil => intro _; rfl
  | cons dist rest ih =>
    intro hrow
    rw [List.any_cons]
    unfold kingClassifyE
    obtain ⟨hr0, hr8⟩ := hrow dist (List.mem_cons_self dist rest)
    rw [bgetE_ok (fc + dirC * dist) hr0 hr8]
    dsimp only [ebind]
    cases he : isEnemy p (bget board (fr + dirR * dist) (fc + dirC * dist)) with
    | true => rw [if_pos rfl]; rfl
    | false =>
      rw [if_neg (by simp), ih (fun x hx => hrow x (List.mem_cons_of_mem dist hx)),
        Bool.false_or]

theorem kingScanPathE_ok (board : Board) (p : Piece) (fr fc dirR dirC : ℤ) :
    ∀ (dists : List ℤ) (foundEnemy : Bool),
      (∀ dist ∈ dists, 0 ≤ fr + dirR * dist ∧ fr + dirR * dist < 8) →
      kingScanPathE board p fr fc dirR dirC dists foundEnemy =
        Except.ok (kingScanPath board p fr fc dirR dirC dists foundEnemy) := by
  intro dists
  induction dists with
  | nil => intro fe _; rfl
  | cons dist rest ih =>
    intro fe hrow
    unfold kingScanPathE kingScanPath
    obtain ⟨hr0, hr8⟩ := hrow dist (List.mem_cons_self dist rest)
    rw [bgetE_ok (fc + dirC * dist) hr0 hr8]
    dsimp only [ebind]
    have hrest : ∀ x ∈ rest, 0 ≤ fr + dirR * x ∧ fr + dirR * x < 8 :=
      fun x hx => hrow x (List.mem_cons_of_mem dist hx)
    cases hcell : bget board (fr + dirR * dist) (fc + dirC * dist) with
    | none => exact ih fe hrest
    | some cp =>
      dsimp only
      by_cases heq : cp.toLowerCase = p.toLowerCase
      · rw [if_pos heq, if_pos heq]
      rw [if_neg heq, if_neg heq]
      cases fe with
      | true => rfl
      | false => exact ih true hrest

theorem isValidKingMoveE_ok {game : Game} {fromPos toPos : Pos} {p : Piece}
    (mcf : Option Pos)
    (hf : 0 ≤ fromPos.row ∧ fromPos.row < 8)
    (ht : 0 ≤ toPos.row ∧ toPos.row < 8) :
    isValidKingMoveE game fromPos toPos p mcf =
      Except.ok (isValidKingMove game fromPos toPos p mcf) := by
  unfold isValidKingMoveE isValidKingMove
  dsimp only
  by_cases h1 : |toPos.row - fromPos.row| ≠ |toPos.col - fromPos.col|
  · rw [if_pos h1, if_pos h1]
  rw [if_neg h1, if_neg h1]
  by_cases h2 : |toPos.row - fromPos.row| < 1
  · rw [if_pos h2, if_pos h2]
  rw [if_neg h2, if_neg h2]
  rw [kingScanPathE_ok game.board p fromPos.row fromPos.col _ _ _ false
    (distList_row_bounds hf.1 hf.2 ht.1 ht.2)]
  dsimp only [ebind]
  cases hscan : kingScanPath game.board p fromPos.row fromPos.col
      (if 0 < toPos.row - fromPos.row then 1 else -1)
      (if 0 < toPos.col - fromPos.col then 1 else -1)
      (distList |toPos.row - fromPos.row|) false with
  | none => rfl
  | some foundEnemy =>
    dsimp only
    rw [bgetE_ok toPos.col ht.1 ht.2]
    dsimp only [ebind]
    split_ifs <;> rfl

set_option maxHeartbeats 2000000 in
theorem isValidMoveE_ok (game : Game) (fromPos toPos : Pos) (playerColor : Color) :
    isValidMoveE game fromPos toPos playerColor =
      Except.ok (isValidMove game fromPos toPos playerColor) := by
  unfold isValidMoveE isValidMove
  by_cases h1 : game.status ≠ Status.playing
  · rw [if_pos h1, if_pos h1]
  rw [if_neg h1, if_neg h1]
  by_cases h2 : game.currentPlayer ≠ playerColor
  · rw [if_pos h2, if_pos h2]
  rw [if_neg h2, if_neg h2]
  by_cases h3 : fromPos.row = toPos.row ∧ fromPos.col = toPos.col
  · rw [if_pos h3, if_pos h3]
  rw [if_neg h3, if_neg h3]
  by_cases h4 : toPos.row < 0 ∨ 8 ≤ toPos.row ∨ toPos.col < 0 ∨ 8 ≤ toPos.col
  · rw [if_pos h4, if_pos h4]
  rw [if_neg h4, if_neg h4]
  cases hb : bget game.board fromPos.row fromPos.col with
  | none => rfl
  | some p =>
    dsimp only
    unfold isValidMovePiece
    by_cases h5 : p.toLowerCase ≠ playerColor
    · rw [if_pos h5, if_pos h5]
    rw [if_neg h5, if_neg h5]
    by_cases h6 : mustContinueMismatch game.mustContinueFrom fromPos = true
    · rw [if_pos h6, if_pos h6]
    rw [if_neg h6, if_neg h6]
    have ht0 : (0 : ℤ) ≤ toPos.row := by omega
    have ht8 : toPos.row < 8 := by omega
    rw [bgetE_ok toPos.col ht0 ht8]
    dsimp only [ebind]
    by_cases h7 : (bget game.board toPos.row toPos.col).isSome = true
    · rw [if_pos h7, if_pos h7]
    rw [if_neg h7, if_neg h7]
    obtain ⟨hf0, hf8, -, -⟩ := bget_some_bounds hb
    by_cases hk : p.isKing = true
    · -- a king: the classification loop reads the board directly
      rw [if_pos hk]
      rw [kingClassifyE_ok game.board p fromPos.row fromPos.col _ _ _
        (distList_row_bounds hf0 hf8 ht0 ht8)]
      have hcic : computeIsCapture game.board p fromPos toPos =
          ((distList |toPos.row - fromPos.row|).any fun dist =>
            isEnemy p (bget game.board
              (fromPos.row + (if 0 < toPos.row - fromPos.row then 1 else -1) * dist)
              (fromPos.col + (if 0 < toPos.col - fromPos.col then 1 else -1) * dist))) := by
        unfold computeIsCapture
        dsimp only
        rw [hk, if_pos rfl]
      rw [← hcic]
      dsimp only [ebind]
      cases hc : computeIsCapture game.board p fromPos toPos with
      | true =>
        rw [if_neg (show ¬((true : Bool) = false) by simp)]
        dsimp only [ebind]
        rw [if_neg (show ¬((true : Bool) = false ∧ (false : Bool) = true) by simp)]
        rw [if_pos hk]
        rw [if_neg (show ¬((true : Bool) = false ∧
          playerHasAnyCapture game playerColor = true) by simp)]
        rw [if_pos hk]
        exact isValidKingMoveE_ok game.mustContinueFrom ⟨hf0, hf8⟩ ⟨ht0, ht8⟩
      | false =>
        rw [if_pos rfl, playerHasAnyCaptureE_ok]
        dsimp only [ebind]
        cases hph : playerHasAnyCapture game playerColor with
        | true =>
          rw [if_pos ⟨rfl, rfl⟩, if_pos ⟨rfl, rfl⟩]
        | false =>
          rw [if_neg (show ¬((false : Bool) = false ∧ (false : Bool) = true) by simp)]
          rw [if_pos hk]
          rw [if_neg (show ¬((false : Bool) = false ∧ (false : Bool) = true) by simp)]
          rw [if_pos hk]
          exact isValidKingMoveE_ok game.mustContinueFrom ⟨hf0, hf8⟩ ⟨ht0, ht8⟩
    · -- a man: the classification is the pure 2x2 shape test
      have hkf : p.isKing = false := by
        revert hk
        cases p.isKing <;> simp
      rw [if_neg hk]
      have hcic : computeIsCapture game.board p fromPos toPos =
          decide (|toPos.row - fromPos.row| = 2 ∧ |toPos.col - fromPos.col| = 2) := by
        unfold computeIsCapture
        dsimp only
        rw [hkf, if_neg (by simp)]
      rw [← hcic]
      dsimp only [ebind]
      cases hc : computeIsCapture game.board p fromPos toPos with
      | true =>
        rw [if_neg (show ¬((true : Bool) = false) by simp)]
        dsimp only [ebind]
        rw [if_neg (show ¬((true : Bool) = false ∧ (false : Bool) = true) by simp)]
        rw [if_neg hk]
        rw [if_neg (show ¬((true : Bool) = false ∧
          playerHasAnyCapture game playerColor = true) by simp)]
        rw [if_neg hk]
        split_ifs <;> rfl
      | false =>
        rw [if_pos rfl, playerHasAnyCaptureE_ok]
        dsimp only [ebind]
        cases hph : playerHasAnyCapture game playerColor with
        | true =>
          rw [if_pos ⟨rfl, rfl⟩, if_pos ⟨rfl, rfl⟩]
        | false =>
          rw [if_neg (show ¬((false : Bool) = false ∧ (false : Bool) = true) by simp)]
          rw [if_neg hk]
          rw [if_neg (show ¬((false : Bool) = false ∧ (false : Bool) = true) by simp)]
          rw [if_neg hk]
          split_ifs <;> rfl

/-- C5 (amended): for every input game and pair of positions with *integer*
coordinates — including out-of-range ones — the exception-aware translation
of `isValidMove` returns `ok` of the boolean the engine computes (no
exception escapes), and a rejected move request leaves the game state
unchanged.  The restriction to integer coordinates is forced by
`noninteger_coordinate_throws`: at a non-integer destination coordinate the
source throws, so the claim as stated fails. -/
theorem engine_total_and_atomic :
    ∀ (game : Game) (fromPos toPos : Pos) (playerColor : Color),
      isValidMoveE game fromPos toPos playerColor =
        Except.ok (isValidMove game fromPos toPos playerColor) ∧
      (isValidMove game fromPos toPos playerColor = false →
        (makeMove game fromPos toPos playerColor).1 = game) := by
  intro game fromPos toPos playerColor
  refine ⟨isValidMoveE_ok game fromPos toPos playerColor, fun hrej => ?_⟩
  unfold makeMove
  rw [if_neg (show ¬(isValidMove game fromPos toPos playerColor = true) by
    rw [hrej]; simp)]
  cases hb : bget game.board fromPos.row fromPos.col with
  | none => rfl
  | some p =>
    dsimp only
    split_ifs <;> rfl

theorem engine_total_and_atomic_witness :
    (isValidMoveE playingInitial ⟨5, 0⟩ ⟨9, 9⟩ Color.w =
      Except.ok (isValidMove playingInitial ⟨5, 0⟩ ⟨9, 9⟩ Color.w)) ∧
    (makeMove playingInitial ⟨5, 0⟩ ⟨9, 9⟩ Color.w).1 = playingInitial :=
  ⟨(engine_total_and_atomic playingInitial ⟨5, 0⟩ ⟨9, 9⟩ Color.w).1,
   (engine_total_and_atomic playingInitial ⟨5, 0⟩ ⟨9, 9⟩ Color.w).2 (by decide)⟩

/-- C5 counterexample: the claim that `isValidMove` resolves every input —
however malformed the coordinates — to a boolean without raising an
exception is false.  From the initial playing position, white's request
(5,0)→(3.5, 0.5) passes every check up to and including the line-230 bounds
test (0 ≤ 3.5 < 8 holds numerically), and then line 242 evaluates
`board[3.5][0.5]`: `board[3.5]` is `undefined`, so the member access throws
a TypeError.  In the JS-number translation the run ends in `error`, not a
boolean. -/
theorem noninteger_coordinate_throws :
    isValidMoveQE playingInitial ⟨5, 0⟩ ⟨mkRat 7 2, mkRat 1 2⟩ Color.w =
      Except.error () := by
  decide
